import Mathlib

/-!
A verification development for the Parsley command-line option parser

Shallow embedding of `src/parsley.cpp` / `src/parsley.h` (the Parsley C++
command-line option-parsing library, version 1.1.1).  Each C++ function that
the verified properties touch is translated into an executable Lean
definition of the same name; `int` (the library's `intp_t`) is modelled as
`Int` with the explicit 32-bit bounds used by `str2int`.  A `double`
supplied through the builder API is modelled as an exact rational `ℚ`; a
`double` parsed from text is a `DoubleVal` — an exact rational, an
infinity or a NaN, matching the full `strtod` subject sequence accepted by
`%lf` (the library only compares, stores and re-renders these values; IEEE
rounding is not modelled).  The fixed 40-byte `snprintf` buffers of
`real2str`, `int2str` and `OptionSpec::range` are modelled by cutting the
rendered text to 39 characters where the rendering can exceed them.
-/

set_option autoImplicit false

namespace Parsley

/-! Character-level utilities:

`stripString`, and the character classes used by the C library functions
(`isspace`, the digit range of `%d` / `%lf` scanning). -/

/-- C `isspace` in the default locale: space, tab, newline, vertical tab,
form feed, carriage return. -/
def isSpaceChar (c : Char) : Bool :=
  c = ' ' || c = '\t' || c = '\n' || c = '\x0b' || c = '\x0c' || c = '\r'

/-- A decimal digit character, as consumed by the `%lf` / `%d` conversions. -/
def isDigitChar (c : Char) : Bool :=
  '0' ≤ c && c ≤ '9'

/-- The character of a decimal digit (`0 ≤ d ≤ 9`). -/
def digitChar (d : Nat) : Char := Char.ofNat (48 + d)

/-- The numeric value of a run of digit characters, most significant first
(the accumulator form of the value a `%d` / `%lf` conversion assigns). -/
def digitsValFrom (a : Nat) (cs : List Char) : Nat :=
  cs.foldl (fun a c => 10 * a + (c.toNat - 48)) a

/-- The numeric value of a run of digit characters, most significant first. -/
def digitsValNat (cs : List Char) : Nat := digitsValFrom 0 cs

/-- Model of `stripString` (parsley.cpp): trim leading and trailing `isspace`
characters.  Stated on the character list of the string. -/
def stripChars (cs : List Char) : List Char :=
  ((cs.dropWhile isSpaceChar).reverse.dropWhile isSpaceChar).reverse

/-- Model of `str.find ("!!", 0) != npos` (the guard in `str2real`): the string
contains two adjacent exclamation marks. -/
def hasBangBang : List Char → Bool
  | [] => false
  | [_] => false
  | a :: b :: rest => (a = '!' && b = '!') || hasBangBang (b :: rest)

/-! Numeric text conversion: `str2real`, `str2int`, `int2str`, `real2str`.

The C code runs `sscanf (temp, "%lf!!%c", ...)` over the trimmed input with
the sentinel `"!!x"` appended.  `scanLf` models the `%lf` conversion — the
full C99 `strtod` subject sequence: skip leading whitespace, optional sign,
then one of the case-insensitive `inf` / `infinity` / `nan` /
`nan(n-char-seq)` keywords, a hexadecimal constant `0x h* [. h*] [p±ddd]`,
or a decimal constant with an optional fractional part and an optional
exponent, consuming the longest valid run and returning the unconsumed
rest.  `scanD` models `%d` likewise.  A parsed double is a `DoubleVal`:
finite values are exact rationals (decimal and hexadecimal literals are
exact; IEEE rounding is not modelled), infinities and NaN are explicit. -/

/-- A parsed `double` value: an exact finite rational, a signed infinity,
or a NaN.  The sign of a NaN is not tracked: it affects neither the
comparisons nor any output the library produces on the NaN paths. -/
inductive DoubleVal where
  | fin (q : ℚ)
  | inf (neg : Bool)
  | nan
deriving DecidableEq

instance : OfNat DoubleVal 0 := ⟨.fin 0⟩

/-- IEEE `<` of a parsed double against a finite bound: NaN compares false,
`-inf` is below every finite value, `+inf` above. -/
def DoubleVal.ltq : DoubleVal → ℚ → Bool
  | .fin q, m => q < m
  | .inf neg, _ => neg
  | .nan, _ => false

/-- IEEE `>` of a parsed double against a finite bound. -/
def DoubleVal.gtq : DoubleVal → ℚ → Bool
  | .fin q, m => m < q
  | .inf neg, _ => !neg
  | .nan, _ => false

/-- ASCII lower-casing, for the case-insensitive keyword matching of
`strtod`. -/
def toLowerChar (c : Char) : Char :=
  if 'A' ≤ c && c ≤ 'Z' then Char.ofNat (c.toNat + 32) else c

/-- A hexadecimal digit character. -/
def isHexDigitChar (c : Char) : Bool :=
  ('0' ≤ c && c ≤ '9') || ('a' ≤ c && c ≤ 'f') || ('A' ≤ c && c ≤ 'F')

/-- The numeric value of one hexadecimal digit character. -/
def hexDigitVal (c : Char) : Nat :=
  if c ≤ '9' then c.toNat - 48
  else if c ≤ 'F' then c.toNat - 55
  else c.toNat - 87

/-- The numeric value of a run of hexadecimal digit characters, most
significant first. -/
def hexDigitsValNat (cs : List Char) : Nat :=
  cs.foldl (fun a c => 16 * a + hexDigitVal c) 0

/-- A character allowed inside the optional `(n-char-seq)` of a NaN form:
letters, digits and underscore. -/
def isNanBodyChar (c : Char) : Bool :=
  ('0' ≤ c && c ≤ '9') || ('a' ≤ c && c ≤ 'z') || ('A' ≤ c && c ≤ 'Z') || c = '_'

/-- Case-insensitive prefix match of a lower-case keyword against the
input. -/
def matchCI : List Char → List Char → Bool
  | [], _ => true
  | _ :: _, [] => false
  | p :: ps, c :: cs => toLowerChar c = p && matchCI ps cs

/-- An optional leading sign.  Returns `(isNegative, rest)`. -/
def scanSign (cs : List Char) : Bool × List Char :=
  match cs with
  | [] => (false, [])
  | c :: rest =>
    if c = '+' then (false, rest)
    else if c = '-' then (true, rest)
    else (false, c :: rest)

/-- The power `10 ^ e` as an exact rational, for an integer exponent. -/
def qpow10 (e : Int) : ℚ :=
  if 0 ≤ e then (10 : ℚ) ^ e.toNat else 1 / (10 : ℚ) ^ (-e).toNat

/-- An optional exponent part `e±ddd` of a `%lf` conversion.  If an `e` / `E`
is not followed by at least one digit the exponent is not consumed at all
(the conversion ends before the `e`). -/
def scanExp (cs : List Char) : Int × List Char :=
  match cs with
  | [] => (0, [])
  | c :: rest =>
    if c = 'e' || c = 'E' then
      let sg := scanSign rest
      let ds := sg.2.takeWhile isDigitChar
      if ds.isEmpty then (0, c :: rest)
      else
        ((if sg.1 then -(digitsValNat ds : Int) else (digitsValNat ds : Int)),
         sg.2.dropWhile isDigitChar)
    else (0, c :: rest)

/-- The power `2 ^ e` as an exact rational, for an integer exponent. -/
def qpow2 (e : Int) : ℚ :=
  if 0 ≤ e then (2 : ℚ) ^ e.toNat else 1 / (2 : ℚ) ^ (-e).toNat

/-- An optional binary-exponent part `p±ddd` of a hexadecimal `%lf`
conversion.  If a `p` / `P` is not followed by at least one digit the
exponent is not consumed at all. -/
def scanPExp (cs : List Char) : Int × List Char :=
  match cs with
  | [] => (0, [])
  | c :: rest =>
    if c = 'p' || c = 'P' then
      let sg := scanSign rest
      let ds := sg.2.takeWhile isDigitChar
      if ds.isEmpty then (0, c :: rest)
      else
        ((if sg.1 then -(digitsValNat ds : Int) else (digitsValNat ds : Int)),
         sg.2.dropWhile isDigitChar)
    else (0, c :: rest)

/-- The value of a parsed decimal `%lf` conversion: sign, integer-part
digits, fractional-part digits, decimal exponent. -/
def lfValue (neg : Bool) (ip fp : List Char) (ex : Int) : ℚ :=
  let mag : ℚ :=
    ((digitsValNat ip : ℚ) + (digitsValNat fp : ℚ) / (10 : ℚ) ^ fp.length) * qpow10 ex
  if neg then -mag else mag

/-- The value of a parsed hexadecimal `%lf` conversion: sign, integer-part
hex digits, fractional-part hex digits, binary exponent. -/
def hexValue (neg : Bool) (ip fp : List Char) (ex : Int) : ℚ :=
  let mag : ℚ :=
    ((hexDigitsValNat ip : ℚ) + (hexDigitsValNat fp : ℚ) / (16 : ℚ) ^ fp.length) *
      qpow2 ex
  if neg then -mag else mag

/-- The optional `(n-char-seq)` tail of a NaN form: when the input after
`nan` starts with `(`, a run of body characters and a closing `)`, all of
it is consumed; otherwise nothing more is (a `nan(` without the closing
`)` falls back to the bare `nan`). -/
def scanNanTail (rest : List Char) : List Char :=
  match rest with
  | '(' :: r2 =>
    match r2.dropWhile isNanBodyChar with
    | ')' :: r3 => r3
    | _ => rest
  | _ => rest

/-- The `strtod` infinity and NaN subject sequences, case-insensitive:
`infinity`, `inf`, `nan` and `nan(n-char-seq)`. -/
def scanInfNan (neg : Bool) (cs : List Char) : Option (DoubleVal × List Char) :=
  if matchCI ['i', 'n', 'f', 'i', 'n', 'i', 't', 'y'] cs then
    some (.inf neg, cs.drop 8)
  else if matchCI ['i', 'n', 'f'] cs then some (.inf neg, cs.drop 3)
  else if matchCI ['n', 'a', 'n'] cs then some (.nan, scanNanTail (cs.drop 3))
  else none

/-- Whether the input starts with a hexadecimal digit. -/
def hexBodyStarts (cs : List Char) : Bool :=
  match cs with
  | c :: _ => isHexDigitChar c
  | [] => false

/-- Whether the input after `0x` forms a valid hexadecimal body (`h...` or
`.h...`), the condition under which `strtod` commits to the hexadecimal
form. -/
def hexBodyHeads (cs : List Char) : Bool :=
  match cs with
  | c :: rest => isHexDigitChar c || (c = '.' && hexBodyStarts rest)
  | [] => false

/-- The hexadecimal `strtod` subject sequence `0x h* [. h*] [p±ddd]` with
at least one hexadecimal digit.  When the `0x` prefix is not followed by
such a body, `strtod` falls back to the decimal form (which then consumes
the `0` alone), so this scanner declines. -/
def scanHexNum (neg : Bool) (cs : List Char) : Option (DoubleVal × List Char) :=
  match cs with
  | z :: x :: rest =>
    if z = '0' && (x = 'x' || x = 'X') && hexBodyHeads rest then
      let ip := rest.takeWhile isHexDigitChar
      let cs3 := rest.dropWhile isHexDigitChar
      match cs3 with
      | '.' :: afterDot =>
        let fp := afterDot.takeWhile isHexDigitChar
        let cs4 := afterDot.dropWhile isHexDigitChar
        let ex := scanPExp cs4
        some (.fin (hexValue neg ip fp ex.1), ex.2)
      | _ =>
        let ex := scanPExp cs3
        some (.fin (hexValue neg ip [] ex.1), ex.2)
    else none
  | _ => none

/-- The decimal `strtod` subject sequence after the sign: `ddd`, `ddd.`,
`ddd.ddd` or `.ddd`, with an optional exponent. -/
def scanDec (neg : Bool) (cs : List Char) : Option (DoubleVal × List Char) :=
  let ip := cs.takeWhile isDigitChar
  let cs3 := cs.dropWhile isDigitChar
  match cs3 with
  | '.' :: afterDot =>
    let fp := afterDot.takeWhile isDigitChar
    let cs4 := afterDot.dropWhile isDigitChar
    if ip.isEmpty && fp.isEmpty then none
    else
      let ex := scanExp cs4
      some (.fin (lfValue neg ip fp ex.1), ex.2)
  | _ =>
    if ip.isEmpty then none
    else
      let ex := scanExp cs3
      some (.fin (lfValue neg ip [] ex.1), ex.2)

/-- The `%lf` conversion: leading whitespace, optional sign, then the
longest match among the infinity / NaN keywords, a hexadecimal constant
and a decimal constant (`strtod` semantics).  Returns the parsed value and
the unconsumed rest of the input, or `none` when no number can be formed
(which makes the surrounding `sscanf` report a matching failure). -/
def scanLf (cs : List Char) : Option (DoubleVal × List Char) :=
  let cs1 := cs.dropWhile isSpaceChar
  let sg := scanSign cs1
  match scanInfNan sg.1 sg.2 with
  | some r => some r
  | none =>
    match scanHexNum sg.1 sg.2 with
    | some r => some r
    | none => scanDec sg.1 sg.2

/-- The `%d` conversion: leading whitespace, optional sign, a run of decimal
digits. -/
def scanD (cs : List Char) : Option (Int × List Char) :=
  let cs1 := cs.dropWhile isSpaceChar
  let sg := scanSign cs1
  let ds := sg.2.takeWhile isDigitChar
  if ds.isEmpty then none
  else
    some ((if sg.1 then -(digitsValNat ds : Int) else (digitsValNat ds : Int)),
          sg.2.dropWhile isDigitChar)

/-- The sentinel appended by `str2real` / `str2int` ( `temp = stripped + "!!x"` ). -/
def sentinel : List Char := ['!', '!', 'x']

/-- Model of `sscanf (temp, "%lf!!%c", &value, &c)` followed by the checks `n == 2`
and `c == 'x'`: the `%lf` conversion must be immediately followed by the
literal `!!`, whose next character must be `x`. -/
def sentinelScanReal (cs : List Char) : Option DoubleVal :=
  match scanLf cs with
  | none => none
  | some (v, rest) =>
    match rest with
    | '!' :: '!' :: c :: _ => if c = 'x' then some v else none
    | _ => none

/-- Model of `sscanf (temp, "%d!!%c", &value, &c)` followed by the same checks. -/
def sentinelScanInt (cs : List Char) : Option Int :=
  match scanD cs with
  | none => none
  | some (v, rest) =>
    match rest with
    | '!' :: '!' :: c :: _ => if c = 'x' then some v else none
    | _ => none

/-- Model of `Parsley::str2real`: reject any input containing `"!!"`, then require the
whitespace-trimmed input followed by the sentinel `"!!x"` to scan as
`%lf!!%c` with `c == 'x'`. -/
def str2real (str : String) : Option DoubleVal :=
  if hasBangBang str.data then none
  else sentinelScanReal (stripChars str.data ++ sentinel)

/-- The value `std::numeric_limits<intp_t>::min()` as a double (`intp_t` is `int`). -/
def dmin : ℚ := -2147483648

/-- The value `std::numeric_limits<intp_t>::max()` as a double. -/
def dmax : ℚ := 2147483647

/-- The smallest `intp_t` value. -/
def intpMin : Int := -2147483648

/-- The largest `intp_t` value. -/
def intpMax : Int := 2147483647

/-- Model of `Parsley::str2int`: first parse as a real for the representable-range
check, then scan the same trimmed-plus-sentinel string as `%d!!%c`. -/
def str2int (str : String) : Option Int :=
  match str2real str with
  | none => none
  | some real =>
    if real.ltq dmin then none
    else if real.gtq dmax then none
    else sentinelScanInt (stripChars str.data ++ sentinel)

/-- The digit characters of `n`, most significant first, in front of `acc`
(the accumulator form of `%d` rendering).  Structural recursion on a fuel
bound (any `fuel > n` is enough) so that the kernel can evaluate it. -/
def natDigitsCore (fuel : Nat) (n : Nat) (acc : List Char) : List Char :=
  match fuel with
  | 0 => acc
  | fuel + 1 =>
    if n < 10 then digitChar n :: acc
    else natDigitsCore fuel (n / 10) (digitChar (n % 10) :: acc)

/-- The decimal digit characters of `n`, most significant first. -/
def natDigits (n : Nat) : List Char := natDigitsCore (n + 1) n []

/-- The characters `snprintf (buffer, 40, "%d", i)` produces: an optional
minus sign followed by the decimal digits of the magnitude. -/
def intChars (i : Int) : List Char :=
  if i < 0 then '-' :: natDigits i.natAbs else natDigits i.toNat

/-- Model of `Parsley::int2str`: plain base-10 rendering via `%d`. -/
def int2str (i : Int) : String := String.mk (intChars i)

/-- Drop trailing `'0'` characters (the `%g` suppression of trailing zeros). -/
def stripTrailingZeros (cs : List Char) : List Char :=
  (cs.reverse.dropWhile (fun c => c = '0')).reverse

/-- The decimal exponent of `a > 0`: the unique `e` with
`10 ^ e ≤ a < 10 ^ (e + 1)`. -/
def decExp (a : ℚ) : Int :=
  if 1 ≤ a then (Nat.log 10 a.floor.toNat : Int)
  else -(Nat.clog 10 (((a.den : Nat) + a.num.toNat - 1) / a.num.toNat) : Int)

/-- The exponent field of `%g` scientific form: sign and at least two digits. -/
def gExpChars (e : Int) : List Char :=
  let mag := natDigits e.natAbs
  let mag := if e.natAbs < 10 then '0' :: mag else mag
  (if e < 0 then '-' else '+') :: mag

/-- Model of `snprintf "%g"` on a finite nonzero value, modelled on the exact
rational: round to 6 significant digits, then use the fixed form when the
decimal exponent lies in `[-4, 5]` and the scientific form otherwise, with
trailing zeros removed.  Ties round up (the binary double that `%g` really
receives is itself already rounded, so the tie direction is an idealisation). -/
def gFormat (x : ℚ) : String :=
  let a := |x|
  let e0 := decExp a
  let n0 := round (a * qpow10 (5 - e0))
  let n : Nat := if n0 = 1000000 then 100000 else n0.toNat
  let e : Int := if n0 = 1000000 then e0 + 1 else e0
  let ds := natDigits n
  let body : List Char :=
    if e < -4 || 6 ≤ e then
      let frac := stripTrailingZeros (ds.drop 1)
      (if frac.isEmpty then ds.take 1 else ds.take 1 ++ '.' :: frac) ++ 'e' :: gExpChars e
    else if 0 ≤ e then
      let frac := stripTrailingZeros (ds.drop (e.toNat + 1))
      if frac.isEmpty then ds.take (e.toNat + 1)
      else ds.take (e.toNat + 1) ++ '.' :: frac
    else
      '0' :: '.' :: List.replicate ((-e).toNat - 1) '0' ++ stripTrailingZeros ds
  String.mk (if x < 0 then '-' :: body else body)

/-- Model of `Parsley::real2str` and its 40-byte `snprintf` buffer (parsley.cpp:178):
whole numbers (`floor(x) == x`, which also holds for the infinities) render
as `%.1f` — digits plus `".0"`, or `inf` — and other values as `%g`; either
way the output is cut to the 39 characters the buffer can hold beside the
terminating NUL. -/
def real2str (x : DoubleVal) : String :=
  match x with
  | .inf neg => if neg then "-inf" else "inf"
  | .nan => "nan"
  | .fin q =>
    if q.den = 1 then String.mk ((intChars q.num ++ ['.', '0']).take 39)
    else String.mk ((gFormat q).data.take 39)

/-! The option-specification model, `Parsley::OptionSpec`. -/

/-- Model of `OptionSpec::Kind`. -/
inductive Kind where
  | kFlag
  | kStr
  | kEnum
  | kInt
  | kReal
deriving DecidableEq

/-- Model of `OptionSpec::kindImage`. -/
def kindImage : Kind → String
  | .kFlag => "flag"
  | .kStr => "string"
  | .kEnum => "enumSpec"
  | .kInt => "integer"
  | .kReal => "real"

/-- Model of `Parsley::OptionSpec`.  The field defaults are the initialisations done
by the `OptionSpec` constructor; a short name of `'\0'` means "no short
name".  `double` fields are modelled as `ℚ`, `intp_t` fields as `Int`. -/
structure OptionSpec where
  kind : Kind
  longName : String
  shortName : Char
  description : String
  isRequired : Bool
  isSingleton : Bool := false
  enumOptions : List String := []
  rangeIsDefined : Bool := false
  minIntValue : Int := 0
  maxIntValue : Int := 0
  minRealValue : ℚ := 0
  maxRealValue : ℚ := 0
  evIsDefined : Bool := false
  evName : String := ""
  defaultIsDefined : Bool := false
  defaultStr : String := ""
  defaultInt : Int := 0
  defaultReal : ℚ := 0
deriving DecidableEq

instance : Inhabited OptionSpec :=
  ⟨{ kind := .kFlag, longName := "", shortName := '\x00', description := "",
     isRequired := false }⟩

/-- Model of `Parsley::indexOf` with its explicit running index. -/
def indexOfAux (value : String) : List String → Int → Int
  | [], _ => -1
  | item :: rest, index => if value = item then index else indexOfAux value rest (index + 1)

/-- Model of `Parsley::indexOf`: the position of `value` in `opts`, `-1` when absent. -/
def indexOf (opts : List String) (value : String) : Int := indexOfAux value opts 0

/-- Model of `Parsley::join`: concatenate the strings, separated by `sep`. -/
def join (args : List String) (sep : String) : String :=
  match args with
  | [] => ""
  | first :: rest => rest.foldl (fun acc item => acc ++ sep ++ item) first

/-- Model of `Parsley::help ()`: the singleton `-h, --help` flag spec with its
implicitly defined default. -/
def help : OptionSpec :=
  { kind := .kFlag, longName := "help", shortName := 'h',
    description := "Show this message and exit.", isRequired := false,
    isSingleton := true, defaultIsDefined := true }

/-- Model of `Parsley::version ()`: the singleton `-V, --version` flag spec. -/
def version : OptionSpec :=
  { kind := .kFlag, longName := "version", shortName := 'V',
    description := "Show version and exit.", isRequired := false,
    isSingleton := true, defaultIsDefined := true }

/-- Model of `Parsley::flagSpec`: flags are implicitly optional with an implicitly
defined default of false. -/
def flagSpec (longName : String) (shortName : Char) (description : String)
    (isSingleton : Bool) : OptionSpec :=
  { kind := .kFlag, longName, shortName, description, isRequired := false,
    defaultIsDefined := true, isSingleton }

/-- Model of `Parsley::strSpec`. -/
def strSpec (longName : String) (shortName : Char) (description : String)
    (isRequired : Bool) : OptionSpec :=
  { kind := .kStr, longName, shortName, description, isRequired }

/-- Model of `Parsley::enumSpec`. -/
def enumSpec (longName : String) (shortName : Char) (description : String)
    (enumOptions : List String) (isRequired : Bool) : OptionSpec :=
  { kind := .kEnum, longName, shortName, description, isRequired, enumOptions }

/-- Model of `Parsley::intSpec`. -/
def intSpec (longName : String) (shortName : Char) (description : String)
    (isRequired : Bool) : OptionSpec :=
  { kind := .kInt, longName, shortName, description, isRequired }

/-- Model of `Parsley::realSpec`. -/
def realSpec (longName : String) (shortName : Char) (description : String)
    (isRequired : Bool) : OptionSpec :=
  { kind := .kReal, longName, shortName, description, isRequired }

/-- Model of `OptionSpec::name`: the rendering used by the error messages. -/
def OptionSpec.name (s : OptionSpec) : String :=
  if s.shortName ≠ '\x00' then
    "-" ++ String.mk [s.shortName] ++ ", --" ++ s.longName
  else
    "--" ++ s.longName

/-- Model of `OptionSpec::info`: the rendering used by the builder warnings. -/
def OptionSpec.info (s : OptionSpec) : String :=
  "the " ++ kindImage s.kind ++ " option '" ++ s.longName ++ "'"

/-- Model of `OptionSpec::range`: `"min to max"` for a ranged numeric spec, `""`
otherwise.  The `"%s to %s"` rendering goes through a 40-byte `snprintf`
buffer (parsley.cpp:571-573), so the combined string is cut to 39
characters. -/
def OptionSpec.range (s : OptionSpec) : String :=
  if s.kind ≠ .kInt ∧ s.kind ≠ .kReal then ""
  else if ¬s.rangeIsDefined then ""
  else
    let v1 := if s.kind = .kInt then int2str s.minIntValue
              else real2str (.fin s.minRealValue)
    let v2 := if s.kind = .kInt then int2str s.maxIntValue
              else real2str (.fin s.maxRealValue)
    String.mk ((v1 ++ " to " ++ v2).data.take 39)

/-- Model of `OptionSpec::enum_set`: `"(a, b, c)"` for an enum spec. -/
def OptionSpec.enum_set (s : OptionSpec) : String :=
  if s.kind ≠ .kEnum then "(nil)"
  else "(" ++ join s.enumOptions ", " ++ ")"

/-! Builder qualifiers.

Each qualifier clones the spec and either applies its change or leaves the
clone identical to the original, emitting a non-fatal warning.  The C++
methods write the warning to `stderr`; here each returns the new spec
together with the warning message, if any. -/

/-- Model of `OptionSpec::defStr`: default value for a string or enum spec. -/
def OptionSpec.defStr (s : OptionSpec) (defValue : String) : OptionSpec × Option String :=
  if s.kind ≠ .kStr ∧ s.kind ≠ .kEnum then
    (s, some ("default string value for " ++ s.info ++ " ignored."))
  else if s.defaultIsDefined then
    (s, some ("secondary default value for " ++ s.info ++ " ignored."))
  else if s.kind = .kEnum ∧ indexOf s.enumOptions defValue = -1 then
    (s, some ("the default value for " ++ s.info ++ " is not an allowed value."))
  else
    ({ s with defaultStr := defValue, defaultIsDefined := true }, none)

/-- Model of `OptionSpec::defInt`: default value for an integer spec.  An
out-of-range default is warned about but still applied. -/
def OptionSpec.defInt (s : OptionSpec) (defValue : Int) : OptionSpec × Option String :=
  if s.kind ≠ .kInt then
    (s, some ("default integer value for " ++ s.info ++ " ignored."))
  else if s.defaultIsDefined then
    (s, some ("secondary default value for " ++ s.info ++ " ignored."))
  else
    ({ s with defaultInt := defValue, defaultIsDefined := true },
     if s.rangeIsDefined ∧ (defValue < s.minIntValue ∨ defValue > s.maxIntValue) then
       some ("the default value for " ++ s.info ++ " is out of range.")
     else none)

/-- Model of `OptionSpec::intRange`: range constraint for an integer spec. -/
def OptionSpec.intRange (s : OptionSpec) (min max : Int) : OptionSpec × Option String :=
  if s.kind ≠ .kInt then
    (s, some ("integer range constraint for " ++ s.info ++ " ignored."))
  else if s.rangeIsDefined then
    (s, some ("secondary range constraint for " ++ s.info ++ " ignored."))
  else
    ({ s with minIntValue := min, maxIntValue := max, rangeIsDefined := true },
     if s.defaultIsDefined ∧ (s.defaultInt < min ∨ s.defaultInt > max) then
       some ("the default value for " ++ s.info ++ " is out of range.")
     else none)

/-- Model of `OptionSpec::defReal`: default value for a real spec. -/
def OptionSpec.defReal (s : OptionSpec) (defValue : ℚ) : OptionSpec × Option String :=
  if s.kind ≠ .kReal then
    (s, some ("default real value for " ++ s.info ++ " ignored."))
  else if s.defaultIsDefined then
    (s, some ("secondary default value for " ++ s.info ++ " ignored."))
  else
    ({ s with defaultReal := defValue, defaultIsDefined := true },
     if s.rangeIsDefined ∧ (defValue < s.minRealValue ∨ defValue > s.maxRealValue) then
       some ("the default value for " ++ s.info ++ " is out of range.")
     else none)

/-- Model of `OptionSpec::realRange`: range constraint for a real spec. -/
def OptionSpec.realRange (s : OptionSpec) (min max : ℚ) : OptionSpec × Option String :=
  if s.kind ≠ .kReal then
    (s, some ("real range constraint for " ++ s.info ++ " ignored."))
  else if s.rangeIsDefined then
    (s, some ("secondary range constraint for " ++ s.info ++ " ignored."))
  else
    ({ s with minRealValue := min, maxRealValue := max, rangeIsDefined := true },
     if s.defaultIsDefined ∧ (s.defaultReal < min ∨ s.defaultReal > max) then
       some ("the default value for " ++ s.info ++ " is out of range.")
     else none)

/-- Model of `OptionSpec::envVar`: the qualifier counts as defined only for a
non-empty name. -/
def OptionSpec.envVar (s : OptionSpec) (envVarName : String) : OptionSpec × Option String :=
  if s.evIsDefined then
    (s, some ("secondary environment variable for " ++ s.info ++ " ignored."))
  else
    ({ s with evName := envVarName, evIsDefined := decide (envVarName.length > 0) }, none)

/-! The registry and the `process` algorithm. -/

/-- Model of `Parsley::ProxyValue`: the per-option working record built afresh on
every `process` call (the user-visible `OptionValue` fields plus the
duplicate-detection flag and the owning spec). -/
structure ProxyValue where
  isDefined : Bool := false
  flag : Bool := false
  str : String := ""
  ival : Int := 0
  real : DoubleVal := 0
  alreadySpecified : Bool := false
  spec : OptionSpec := default
deriving DecidableEq

instance : Inhabited ProxyValue := ⟨{}⟩

/-- The conflict test of the `Parsley` constructor for an ordered pair of
specs: equal long names, or equal short names when the first one has a
short name at all. -/
def specsConflict (a b : OptionSpec) : Bool :=
  a.longName = b.longName || (a.shortName ≠ '\x00' && a.shortName = b.shortName)

/-- The flag `m_specListOkay` as established by the `Parsley` constructor: no
ordered pair of distinct specs conflicts. -/
def specListOkay : List OptionSpec → Bool
  | [] => true
  | s :: rest => rest.all (fun t => !specsConflict s t) && specListOkay rest

/-- Phase A of `process` for one spec: seed the working value from the
default, then let a set environment variable override it.  The process
environment is modelled as a lookup function (`getenv`). -/
def resolveValue (spec : OptionSpec) (env : String → Option String) :
    Except String ProxyValue :=
  let value : ProxyValue :=
    { isDefined := spec.defaultIsDefined, alreadySpecified := false, spec := spec }
  let evLookup : Option String := if spec.evIsDefined then env spec.evName else none
  match spec.kind with
  | .kFlag =>
    .ok { value with
          flag := match evLookup with
                  | some evValue => evValue = "1" || evValue = "Y" || evValue = "YES"
                  | none => false }
  | .kStr =>
    match evLookup with
    | some evValue => .ok { value with str := evValue, isDefined := true }
    | none => .ok { value with str := spec.defaultStr }
  | .kEnum =>
    let source := if spec.defaultIsDefined then "default" else ""
    let vs : ProxyValue × String :=
      match evLookup with
      | some evValue =>
        ({ value with str := evValue, isDefined := true },
         "environment variable " ++ spec.evName)
      | none => ({ value with str := spec.defaultStr }, source)
    if vs.1.isDefined then
      let idx := indexOf spec.enumOptions vs.1.str
      if idx < 0 then
        .error ("invalid " ++ vs.2 ++ " value for " ++ spec.name ++ " : " ++
                vs.1.str ++ " is not one of " ++ spec.enum_set)
      else .ok { vs.1 with ival := idx }
    else .ok vs.1
  | .kInt =>
    match evLookup with
    | none => .ok { value with ival := spec.defaultInt }
    | some evValue =>
      match str2int evValue with
      | none =>
        .error ("invalid environment variable " ++ spec.evName ++ " value for " ++
                spec.name ++ " : '" ++ evValue ++ "' is not a valid integer.")
      | some v => .ok { value with ival := v, isDefined := true }
  | .kReal =>
    match evLookup with
    | none => .ok { value with real := .fin spec.defaultReal }
    | some evValue =>
      match str2real evValue with
      | none =>
        .error ("invalid environment variable " ++ spec.evName ++ " value for " ++
                spec.name ++ " : '" ++ evValue ++
                "' is not a valid floating point number.")
      | some v => .ok { value with real := v, isDefined := true }

/-- Phase A of `process`: the working map, one entry per spec keyed by long
name, in spec order; the first resolution error aborts. -/
def phaseA (env : String → Option String) :
    List OptionSpec → Except String (List (String × ProxyValue))
  | [] => .ok []
  | spec :: rest =>
    match resolveValue spec env with
    | .error e => .error e
    | .ok value =>
      match phaseA env rest with
      | .error e => .error e
      | .ok tailVals => .ok ((spec.longName, value) :: tailVals)

/-- The `theMap[longName]` lookup.  Every long name of the spec list is present
after phase A, so the default is never reached there. -/
def lookupValue (values : List (String × ProxyValue)) (name : String) : ProxyValue :=
  match values.find? (fun nv => nv.1 = name) with
  | some nv => nv.2
  | none => {}

/-- Store an updated working value back under its long name. -/
def setValue (values : List (String × ProxyValue)) (name : String) (v : ProxyValue) :
    List (String × ProxyValue) :=
  match values with
  | [] => []
  | nv :: rest => if nv.1 = name then (name, v) :: rest else nv :: setValue rest name v

/-- The character `arg[1]` of a short-option token (the token has exactly
two characters at the call site). -/
def secondChar (cs : List Char) : Char :=
  match cs with
  | _ :: c :: _ => c
  | _ => '\x00'

/-- The option lookup of the token scan: a 2-character token is a short
option, a `--`-prefixed token of 3 or more characters is a long option,
anything else (like `-xy`) is an invalid format; an option that matches no
spec is "no such option".  At the call site the token is nonempty, starts
with `-` and is not `"--"`. -/
def findSpec (specList : List OptionSpec) (arg : String) : Except String OptionSpec :=
  if arg.length = 2 then
    match specList.find? (fun s => s.shortName = secondChar arg.data) with
    | some spec => .ok spec
    | none => .error ("no such option: " ++ arg)
  else if arg.length ≥ 3 ∧ arg.data.take 2 = ['-', '-'] then
    match specList.find? (fun s => s.longName = String.mk (arg.data.drop 2)) with
    | some spec => .ok spec
    | none => .error ("no such option: " ++ arg)
  else
    .error ("invalid option format: " ++ arg)

/-- The per-kind `switch` of the token scan: update the option's working
value, consuming the next token as the option argument where the kind
requires one (`CHECK_ARGUMENT`).  Returns the updated value and the tokens
left. -/
def applyOption (spec : OptionSpec) (value : ProxyValue) (rest : List String) :
    Except String (ProxyValue × List String) :=
  match spec.kind with
  | .kFlag => .ok ({ value with flag := true, isDefined := true }, rest)
  | .kStr =>
    match rest with
    | [] => .error ("option " ++ spec.name ++ " requires an argument.")
    | argValue :: rest2 => .ok ({ value with str := argValue, isDefined := true }, rest2)
  | .kEnum =>
    match rest with
    | [] => .error ("option " ++ spec.name ++ " requires an argument.")
    | argValue :: rest2 =>
      let idx := indexOf spec.enumOptions argValue
      if idx < 0 then
        .error ("invalid value for " ++ spec.name ++ " : " ++ argValue ++
                " is not one of " ++ spec.enum_set)
      else .ok ({ value with ival := idx, str := argValue, isDefined := true }, rest2)
  | .kInt =>
    match rest with
    | [] => .error ("option " ++ spec.name ++ " requires an argument.")
    | argValue :: rest2 =>
      match str2int argValue with
      | none =>
        .error ("invalid value for " ++ spec.name ++ " : '" ++ argValue ++
                "' is not a valid integer.")
      | some v =>
        if spec.rangeIsDefined ∧ (v < spec.minIntValue ∨ v > spec.maxIntValue) then
          .error ("invalid value for " ++ spec.name ++ " : " ++ int2str v ++
                  " is out of range " ++ spec.range ++ ".")
        else .ok ({ value with ival := v, isDefined := true }, rest2)
  | .kReal =>
    match rest with
    | [] => .error ("option " ++ spec.name ++ " requires an argument.")
    | argValue :: rest2 =>
      match str2real argValue with
      | none =>
        .error ("invalid value for " ++ spec.name ++ " : '" ++ argValue ++
                "' is not a valid floating point number.")
      | some v =>
        if spec.rangeIsDefined ∧
            (v.ltq spec.minRealValue = true ∨ v.gtq spec.maxRealValue = true) then
          .error ("invalid value for " ++ spec.name ++ " : " ++ real2str v ++
                  " is out of range " ++ spec.range ++ ".")
        else .ok ({ value with real := v, isDefined := true }, rest2)

/-- The handler `applyOption` consumes at most one token. -/
theorem applyOption_length_le {spec : OptionSpec} {value : ProxyValue}
    {rest : List String} {value2 : ProxyValue} {rest2 : List String}
    (h : applyOption spec value rest = .ok (value2, rest2)) :
    rest2.length ≤ rest.length := by
  rcases rest with _ | ⟨a, t⟩ <;> cases hk : spec.kind <;>
    simp only [applyOption, hk] at h
  all_goals try exact Except.noConfusion h
  all_goals repeat' split at h
  all_goals try exact Except.noConfusion h
  all_goals
    injection h with h1
  all_goals
    injection h1 with h2 h3
  all_goals
    subst h3
  all_goals
    first
      | exact Nat.le_refl _
      | exact Nat.le_succ _

/-- Phase B of `process`: the left-to-right token scan with its
"options complete" latch.  The result carries the working values, the
positional parameters and whether a singleton option ended the scan early
(in which case `process` reports success at once). -/
def scanArgs (specList : List OptionSpec) (values : List (String × ProxyValue))
    (params : List String) (optionsComplete : Bool) (args : List String) :
    Except String (List (String × ProxyValue) × List String × Bool) :=
  match args with
  | [] => .ok (values, params, false)
  | arg :: rest =>
    if optionsComplete then
      scanArgs specList values (params ++ [arg]) optionsComplete rest
    else if arg = "--" then
      scanArgs specList values params true rest
    else if arg.length = 0 ∨ arg.data.head? ≠ some '-' then
      scanArgs specList values (params ++ [arg]) true rest
    else
      match findSpec specList arg with
      | .error e => .error e
      | .ok spec =>
        let value := lookupValue values spec.longName
        if value.alreadySpecified then
          .error ("duplicate option: " ++ spec.name)
        else
          match h : applyOption spec { value with alreadySpecified := true } rest with
          | .error e => .error e
          | .ok (value2, rest2) =>
            let values2 := setValue values spec.longName value2
            if spec.isSingleton then .ok (values2, params, true)
            else scanArgs specList values2 params optionsComplete rest2
termination_by args.length
decreasing_by
  · simp only [List.length_cons]; omega
  · simp only [List.length_cons]; omega
  · simp only [List.length_cons]; omega
  · have := applyOption_length_le h
    simp only [List.length_cons]; omega

/-- Model of `Parsley::process`: the invalid-registry gate, phase A
(defaults and environment), phase B (token scan, possibly ended early by a
singleton) and phase C (the required-option check, skipped after a
singleton).  On success the working values and the positional parameters
are returned; on failure only the first error message. -/
def process (specList : List OptionSpec) (env : String → Option String)
    (arguments : List String) (skipProgramName : Bool) :
    Except String (List (String × ProxyValue) × List String) :=
  if ¬specListOkay specList then .error "option specification errors"
  else
    match phaseA env specList with
    | .error e => .error e
    | .ok values =>
      let args := if skipProgramName then arguments.drop 1 else arguments
      match scanArgs specList values [] false args with
      | .error e => .error e
      | .ok (values2, params, earlyExit) =>
        if earlyExit then .ok (values2, params)
        else
          match values2.find? (fun nv => nv.2.spec.isRequired && !nv.2.isDefined) with
          | some nv => .error ("a value is required for: " ++ nv.2.spec.name)
          | none => .ok (values2, params)

/-! Supporting lemmas about `takeWhile` and `dropWhile` over appends. -/

theorem takeWhile_append_not {α : Type} (p : α → Bool) {b : α} (hb : p b = false)
    (A B : List α) : List.takeWhile p (A ++ b :: B) = List.takeWhile p A := by
  induction A with
  | nil => simp [List.takeWhile_cons, hb]
  | cons a t ih => by_cases h : p a <;> simp [List.takeWhile_cons, h, ih]

theorem dropWhile_append_not {α : Type} (p : α → Bool) {b : α} (hb : p b = false)
    (A B : List α) :
    List.dropWhile p (A ++ b :: B) = List.dropWhile p A ++ b :: B := by
  induction A with
  | nil => simp [List.dropWhile_cons, hb]
  | cons a t ih => by_cases h : p a <;> simp [List.dropWhile_cons, h, ih]

theorem takeWhile_all {α : Type} {p : α → Bool} {l : List α}
    (h : ∀ c ∈ l, p c = true) : List.takeWhile p l = l :=
  List.takeWhile_eq_self_iff.mpr h

theorem dropWhile_all {α : Type} {p : α → Bool} {l : List α}
    (h : ∀ c ∈ l, p c = true) : List.dropWhile p l = [] := by
  induction l with
  | nil => rfl
  | cons a t ih =>
    rw [List.dropWhile_cons, if_pos (h a (List.mem_cons_self a t))]
    exact ih fun c hc => h c (List.mem_cons_of_mem a hc)

theorem dropWhile_of_none {α : Type} {p : α → Bool} {l : List α}
    (h : ∀ c ∈ l, p c = false) : List.dropWhile p l = l := by
  cases l with
  | nil => rfl
  | cons a t =>
    rw [List.dropWhile_cons, if_neg]
    simp [h a (List.mem_cons_self a t)]

/-! Supporting lemmas: appending a non-numeric tail is transparent to the
`%lf` / `%d` scanners. -/

theorem scanSign_append {b : Char} (hp : b ≠ '+') (hm : b ≠ '-') (A B : List Char) :
    scanSign (A ++ b :: B) = ((scanSign A).1, (scanSign A).2 ++ b :: B) := by
  rcases A with _ | ⟨a, t⟩
  · simp [scanSign, hp, hm]
  · by_cases h1 : a = '+' <;> by_cases h2 : a = '-' <;> simp [scanSign, h1, h2]

theorem scanExp_append {b : Char} (he : b ≠ 'e') (hE : b ≠ 'E') (hp : b ≠ '+')
    (hm : b ≠ '-') (hd : isDigitChar b = false) (A B : List Char) :
    scanExp (A ++ b :: B) = ((scanExp A).1, (scanExp A).2 ++ b :: B) := by
  rcases A with _ | ⟨c, t⟩
  · simp [scanExp, he, hE]
  · by_cases hc : (c = 'e' || c = 'E') = true
    · simp only [List.cons_append, scanExp, hc, if_true,
        scanSign_append hp hm, takeWhile_append_not _ hd, dropWhile_append_not _ hd]
      by_cases hds : (List.takeWhile isDigitChar (scanSign t).2).isEmpty = true <;>
        simp [hds]
    · simp [scanExp, hc]

theorem scanPExp_append {b : Char} (hp2 : b ≠ 'p') (hP2 : b ≠ 'P') (hp : b ≠ '+')
    (hm : b ≠ '-') (hd : isDigitChar b = false) (A B : List Char) :
    scanPExp (A ++ b :: B) = ((scanPExp A).1, (scanPExp A).2 ++ b :: B) := by
  rcases A with _ | ⟨c, t⟩
  · simp [scanPExp, hp2, hP2]
  · by_cases hc : (c = 'p' || c = 'P') = true
    · simp only [List.cons_append, scanPExp, hc, if_true,
        scanSign_append hp hm, takeWhile_append_not _ hd, dropWhile_append_not _ hd]
      by_cases hds : (List.takeWhile isDigitChar (scanSign t).2).isEmpty = true <;>
        simp [hds]
    · simp [scanPExp, hc]

theorem matchCI_bang_append {pat : List Char} (hb : '!' ∉ pat) (A B : List Char) :
    matchCI pat (A ++ '!' :: B) = matchCI pat A := by
  induction pat generalizing A with
  | nil => simp [matchCI]
  | cons p ps ih =>
    rcases A with _ | ⟨a, t⟩
    · have hp : toLowerChar '!' ≠ p := by
        have h1 : toLowerChar '!' = '!' := by decide
        rw [h1]
        intro h
        exact hb (by rw [h]; exact List.mem_cons_self p ps)
      simp [matchCI, hp]
    · simp only [List.cons_append, matchCI]
      rw [show t.append ('!' :: B) = t ++ '!' :: B from rfl,
        ih (fun h => hb (List.mem_cons_of_mem p h))]

theorem matchCI_length {pat cs : List Char} (h : matchCI pat cs = true) :
    pat.length ≤ cs.length := by
  induction pat generalizing cs with
  | nil => simp
  | cons p ps ih =>
    rcases cs with _ | ⟨c, t⟩
    · exact absurd h (by simp [matchCI])
    · simp only [matchCI, Bool.and_eq_true] at h
      have := ih h.2
      simp only [List.length_cons]
      omega

theorem scanNanTail_bang_append (t B : List Char) :
    scanNanTail (t ++ '!' :: B) = scanNanTail t ++ '!' :: B := by
  rcases t with _ | ⟨c, r⟩
  · rfl
  · by_cases hc : c = '('
    · subst hc
      simp only [List.cons_append, scanNanTail]
      rw [dropWhile_append_not _ (show isNanBodyChar '!' = false from by decide)]
      rcases hdw : List.dropWhile isNanBodyChar r with _ | ⟨d, r3⟩
      · simp
      · by_cases hd : d = ')'
        · subst hd
          simp
        · simp [hd]
    · simp [scanNanTail, hc]

theorem scanNanTail_suffix (rest : List Char) : scanNanTail rest <:+ rest := by
  rcases rest with _ | ⟨c, r⟩
  · simp [scanNanTail]
  · by_cases hc : c = '('
    · subst hc
      simp only [scanNanTail]
      rcases hdw : List.dropWhile isNanBodyChar r with _ | ⟨d, r3⟩
      · simp
      · by_cases hd : d = ')'
        · subst hd
          have h1 : ')' :: r3 <:+ r := hdw ▸ List.dropWhile_suffix _
          have h2 : r3 <:+ ')' :: r3 := ⟨[')'], rfl⟩
          exact (h2.trans h1).trans ⟨['('], rfl⟩
        · simp [hd]
    · simp [scanNanTail, hc]

theorem scanInfNan_bang_append (neg : Bool) (A B : List Char) :
    scanInfNan neg (A ++ '!' :: B) =
      (scanInfNan neg A).map (fun vr => (vr.1, vr.2 ++ '!' :: B)) := by
  simp only [scanInfNan,
    matchCI_bang_append
      (show ('!' : Char) ∉ ['i', 'n', 'f', 'i', 'n', 'i', 't', 'y'] from by decide) A B,
    matchCI_bang_append (show ('!' : Char) ∉ ['i', 'n', 'f'] from by decide) A B,
    matchCI_bang_append (show ('!' : Char) ∉ ['n', 'a', 'n'] from by decide) A B]
  by_cases h8 : matchCI ['i', 'n', 'f', 'i', 'n', 'i', 't', 'y'] A = true
  · rw [if_pos h8, if_pos h8,
      List.drop_append_of_le_length (by simpa using matchCI_length h8)]
    rfl
  · rw [if_neg h8, if_neg h8]
    by_cases h3 : matchCI ['i', 'n', 'f'] A = true
    · rw [if_pos h3, if_pos h3,
        List.drop_append_of_le_length (by simpa using matchCI_length h3)]
      rfl
    · rw [if_neg h3, if_neg h3]
      by_cases hn : matchCI ['n', 'a', 'n'] A = true
      · rw [if_pos hn, if_pos hn,
          List.drop_append_of_le_length (by simpa using matchCI_length hn),
          scanNanTail_bang_append]
        rfl
      · rw [if_neg hn, if_neg hn]
        rfl

theorem hexBodyStarts_bang_append (t B : List Char) :
    hexBodyStarts (t ++ '!' :: B) = hexBodyStarts t := by
  rcases t with _ | ⟨c, r⟩ <;> rfl

theorem hexBodyHeads_bang_append (t B : List Char) :
    hexBodyHeads (t ++ '!' :: B) = hexBodyHeads t := by
  rcases t with _ | ⟨c, r⟩
  · rfl
  · simp only [List.cons_append, hexBodyHeads, hexBodyStarts_bang_append]

theorem scanHexNum_bang_append (neg : Bool) (A B : List Char) :
    scanHexNum neg (A ++ '!' :: B) =
      (scanHexNum neg A).map (fun vr => (vr.1, vr.2 ++ '!' :: B)) := by
  have hd : isHexDigitChar '!' = false := by decide
  rcases A with _ | ⟨z, A1⟩
  · rcases B with _ | ⟨b2, B2⟩ <;> rfl
  · rcases A1 with _ | ⟨x, t⟩
    · show scanHexNum neg (z :: '!' :: B) =
        (scanHexNum neg [z]).map (fun vr => (vr.1, vr.2 ++ '!' :: B))
      have hfx : (('!' = 'x' : Bool) || ('!' = 'X' : Bool)) = false := by decide
      simp [scanHexNum, hfx]
    · simp only [List.cons_append, scanHexNum, hexBodyHeads_bang_append]
      by_cases hg : (z = '0' && ((x = 'x' || x = 'X') && hexBodyHeads t)) = true
      · rw [if_pos (by simpa [Bool.and_assoc] using hg),
          if_pos (by simpa [Bool.and_assoc] using hg)]
        rw [takeWhile_append_not _ hd, dropWhile_append_not _ hd]
        rcases h3 : List.dropWhile isHexDigitChar t with _ | ⟨c, t3⟩
        · simp [scanPExp]
        · by_cases hc : c = '.'
          · subst hc
            simp only [List.cons_append]
            rw [takeWhile_append_not _ hd, dropWhile_append_not _ hd,
              scanPExp_append (show ('!' : Char) ≠ 'p' from by decide) (by decide)
                (by decide) (by decide) (by decide)]
            simp
          · have hpe := scanPExp_append (show ('!' : Char) ≠ 'p' from by decide)
              (by decide) (by decide) (by decide) (by decide) (c :: t3) B
            simp only [List.cons_append] at hpe
            simp [hc, hpe]
      · rw [if_neg (by simpa [Bool.and_assoc] using hg),
          if_neg (by simpa [Bool.and_assoc] using hg)]
        rfl

theorem scanDec_bang_append (neg : Bool) (A B : List Char) :
    scanDec neg (A ++ '!' :: B) =
      (scanDec neg A).map (fun vr => (vr.1, vr.2 ++ '!' :: B)) := by
  have hd : isDigitChar '!' = false := by decide
  simp only [scanDec]
  rw [takeWhile_append_not _ hd, dropWhile_append_not _ hd]
  rcases h3 : List.dropWhile isDigitChar A with _ | ⟨c, t⟩
  · by_cases hip : (List.takeWhile isDigitChar A).isEmpty = true
    · simp [hip]
    · simp [hip, scanExp]
  · by_cases hc : c = '.'
    · subst hc
      by_cases hip :
          ((List.takeWhile isDigitChar A).isEmpty &&
            (List.takeWhile isDigitChar t).isEmpty) = true
      · simp [takeWhile_append_not _ hd, hip]
      · simp [takeWhile_append_not _ hd, dropWhile_append_not _ hd, hip,
          scanExp_append (show ('!' : Char) ≠ 'e' from by decide) (by decide)
            (by decide) (by decide) hd]
    · by_cases hip : (List.takeWhile isDigitChar A).isEmpty = true
      · simp [hip, hc]
      · have hexp := scanExp_append (show ('!' : Char) ≠ 'e' from by decide) (by decide)
          (by decide) (by decide) hd (c :: t) B
        simp only [List.cons_append] at hexp
        simp [hip, hc, hexp]

theorem scanLf_bang_append (A B : List Char) :
    scanLf (A ++ '!' :: B) = (scanLf A).map (fun vr => (vr.1, vr.2 ++ '!' :: B)) := by
  simp only [scanLf,
    dropWhile_append_not _ (show isSpaceChar '!' = false from by decide),
    scanSign_append (show ('!' : Char) ≠ '+' from by decide)
      (show ('!' : Char) ≠ '-' from by decide),
    scanInfNan_bang_append, scanHexNum_bang_append, scanDec_bang_append]
  rcases hin : scanInfNan (scanSign (List.dropWhile isSpaceChar A)).1
      (scanSign (List.dropWhile isSpaceChar A)).2 with _ | r
  · simp only [Option.map_none']
    rcases hhx : scanHexNum (scanSign (List.dropWhile isSpaceChar A)).1
        (scanSign (List.dropWhile isSpaceChar A)).2 with _ | r2
    · simp
    · simp
  · simp

theorem scanD_append {b : Char} (hs : isSpaceChar b = false) (hp : b ≠ '+')
    (hm : b ≠ '-') (hd : isDigitChar b = false) (A B : List Char) :
    scanD (A ++ b :: B) = (scanD A).map (fun vr => (vr.1, vr.2 ++ b :: B)) := by
  simp only [scanD]
  rw [dropWhile_append_not _ hs, scanSign_append hp hm, takeWhile_append_not _ hd,
    dropWhile_append_not _ hd]
  by_cases hds :
      (List.takeWhile isDigitChar (scanSign (List.dropWhile isSpaceChar A)).2).isEmpty = true <;>
    simp [hds]

/-! Supporting lemmas: the scanners only discard a suffix of their input. -/

theorem scanSign_snd_suffix (cs : List Char) : (scanSign cs).2 <:+ cs := by
  rcases cs with _ | ⟨c, t⟩
  · simp [scanSign]
  · have ht : t <:+ c :: t := ⟨[c], rfl⟩
    by_cases h1 : c = '+' <;> by_cases h2 : c = '-' <;>
      simp [scanSign, h1, h2, ht, List.suffix_refl]

theorem scanExp_snd_suffix (cs : List Char) : (scanExp cs).2 <:+ cs := by
  rcases cs with _ | ⟨c, t⟩
  · simp [scanExp]
  · simp only [scanExp]
    by_cases hc : (c = 'e' || c = 'E') = true
    · simp only [hc, if_true]
      by_cases hds : (List.takeWhile isDigitChar (scanSign t).2).isEmpty = true
      · simp [hds]
      · have h1 : List.dropWhile isDigitChar (scanSign t).2 <:+ (scanSign t).2 :=
          List.dropWhile_suffix _
        have h2 := scanSign_snd_suffix t
        simpa [hds] using ((h1.trans h2).trans ⟨[c], rfl⟩)
    · simp [hc]

theorem scanPExp_snd_suffix (cs : List Char) : (scanPExp cs).2 <:+ cs := by
  rcases cs with _ | ⟨c, t⟩
  · simp [scanPExp]
  · simp only [scanPExp]
    by_cases hc : (c = 'p' || c = 'P') = true
    · simp only [hc, if_true]
      by_cases hds : (List.takeWhile isDigitChar (scanSign t).2).isEmpty = true
      · simp [hds]
      · have h1 : List.dropWhile isDigitChar (scanSign t).2 <:+ (scanSign t).2 :=
          List.dropWhile_suffix _
        have h2 := scanSign_snd_suffix t
        simpa [hds] using ((h1.trans h2).trans ⟨[c], rfl⟩)
    · simp [hc]

theorem scanInfNan_rest_suffix {neg : Bool} {cs : List Char} {v : DoubleVal}
    {rest : List Char} (h : scanInfNan neg cs = some (v, rest)) : rest <:+ cs := by
  simp only [scanInfNan] at h
  split_ifs at h
  · injection h with h1
    injection h1 with h1a h2
    exact h2 ▸ List.drop_suffix _ _
  · injection h with h1
    injection h1 with h1a h2
    exact h2 ▸ List.drop_suffix _ _
  · injection h with h1
    injection h1 with h1a h2
    exact h2 ▸ ((scanNanTail_suffix _).trans (List.drop_suffix _ _))

theorem scanHexNum_rest_suffix {neg : Bool} {cs : List Char} {v : DoubleVal}
    {rest : List Char} (h : scanHexNum neg cs = some (v, rest)) : rest <:+ cs := by
  rcases cs with _ | ⟨z, A1⟩
  · exact absurd h (by simp [scanHexNum])
  rcases A1 with _ | ⟨x, t⟩
  · exact absurd h (by simp [scanHexNum])
  have hbase : t <:+ z :: x :: t := ⟨[z, x], rfl⟩
  have hdw : List.dropWhile isHexDigitChar t <:+ z :: x :: t :=
    (List.dropWhile_suffix _).trans hbase
  simp only [scanHexNum] at h
  split_ifs at h
  · split at h
    next afterDot heq =>
      injection h with h1
      injection h1 with h1a h2
      have hAfter : afterDot <:+ z :: x :: t :=
        (show afterDot <:+ '.' :: afterDot from ⟨['.'], rfl⟩).trans (heq ▸ hdw)
      exact h2 ▸ ((scanPExp_snd_suffix _).trans ((List.dropWhile_suffix _).trans hAfter))
    next w hne =>
      injection h with h1
      injection h1 with h1a h2
      exact h2 ▸ ((scanPExp_snd_suffix _).trans hdw)

theorem scanDec_rest_suffix {neg : Bool} {cs : List Char} {v : DoubleVal}
    {rest : List Char} (h : scanDec neg cs = some (v, rest)) : rest <:+ cs := by
  have h3 : List.dropWhile isDigitChar cs <:+ cs := List.dropWhile_suffix _
  simp only [scanDec] at h
  split at h
  next afterDot heq =>
    split at h
    · exact absurd h (by simp)
    · injection h with h1
      injection h1 with h1a h2
      have hAfter : afterDot <:+ cs := by
        have hcons : afterDot <:+ '.' :: afterDot := ⟨['.'], rfl⟩
        exact hcons.trans (heq ▸ h3)
      exact h2 ▸ ((scanExp_snd_suffix _).trans ((List.dropWhile_suffix _).trans hAfter))
  next w hne =>
    split at h
    · exact absurd h (by simp)
    · injection h with h1
      injection h1 with h1a h2
      exact h2 ▸ ((scanExp_snd_suffix _).trans h3)

theorem scanLf_rest_suffix {cs : List Char} {v : DoubleVal} {rest : List Char}
    (h : scanLf cs = some (v, rest)) : rest <:+ cs := by
  have base : (scanSign (List.dropWhile isSpaceChar cs)).2 <:+ cs :=
    (scanSign_snd_suffix _).trans (List.dropWhile_suffix _)
  simp only [scanLf] at h
  split at h
  next r heq =>
    injection h with h1
    subst h1
    exact (scanInfNan_rest_suffix heq).trans base
  next heq =>
    split at h
    next r2 heq2 =>
      injection h with h1
      subst h1
      exact (scanHexNum_rest_suffix heq2).trans base
    next heq2 =>
      exact (scanDec_rest_suffix h).trans base

theorem scanD_rest_suffix {cs : List Char} {v : Int} {rest : List Char}
    (h : scanD cs = some (v, rest)) : rest <:+ cs := by
  have base : (scanSign (List.dropWhile isSpaceChar cs)).2 <:+ cs :=
    (scanSign_snd_suffix _).trans (List.dropWhile_suffix _)
  simp only [scanD] at h
  split at h
  · exact absurd h (by simp)
  · injection h with h1
    injection h1 with h1a h2
    exact h2 ▸ ((List.dropWhile_suffix _).trans base)

/-! Supporting lemmas about occurrences of the `"!!"` marker. -/

theorem hasBangBang_cons (a : Char) {t : List Char} (h : hasBangBang t = true) :
    hasBangBang (a :: t) = true := by
  rcases t with _ | ⟨b, r⟩
  · simp [hasBangBang] at h
  · simp [hasBangBang, h]

theorem hasBangBang_append_right {A : List Char} (B : List Char)
    (h : hasBangBang A = true) : hasBangBang (A ++ B) = true := by
  induction A with
  | nil => simp [hasBangBang] at h
  | cons a t ih =>
    rcases t with _ | ⟨b, r⟩
    · simp [hasBangBang] at h
    · simp only [hasBangBang, Bool.or_eq_true] at h
      rcases h with h | h

      · simp [hasBangBang, h]
      · exact hasBangBang_cons a (ih h)

theorem hasBangBang_append_left (A : List Char) {B : List Char}
    (h : hasBangBang B = true) : hasBangBang (A ++ B) = true := by
  induction A with
  | nil => simpa
  | cons a t ih => exact hasBangBang_cons a ih

theorem hasBangBang_of_suffix {r cs : List Char} (hsuf : r <:+ cs)
    (h : hasBangBang r = true) : hasBangBang cs = true := by
  obtain ⟨C, rfl⟩ := hsuf
  exact hasBangBang_append_left C h

theorem stripChars_decomp (cs : List Char) : ∃ A B, cs = A ++ stripChars cs ++ B := by
  obtain ⟨A, hA⟩ := List.dropWhile_suffix (l := cs) isSpaceChar
  obtain ⟨C, hC⟩ := List.dropWhile_suffix (l := (List.dropWhile isSpaceChar cs).reverse)
    isSpaceChar
  refine ⟨A, C.reverse, ?_⟩
  have h1 : List.dropWhile isSpaceChar cs = stripChars cs ++ C.reverse := by
    have := congrArg List.reverse hC
    simpa [stripChars, List.reverse_append] using this.symm
  conv_lhs => rw [← hA, h1]
  rw [List.append_assoc]

theorem hasBangBang_stripChars {cs : List Char} (h : hasBangBang cs = false) :
    hasBangBang (stripChars cs) = false := by
  cases hEq : hasBangBang (stripChars cs)
  · rfl
  · exfalso
    obtain ⟨A, B, hdec⟩ := stripChars_decomp cs
    have : hasBangBang cs = true := by
      rw [hdec, List.append_assoc]
      exact hasBangBang_append_left A (hasBangBang_append_right B hEq)
    simp [this] at h

/-! The sentinel technique characterised. -/

theorem sentinelScanReal_append {A : List Char} (hA : hasBangBang A = false) :
    sentinelScanReal (A ++ sentinel) =
      match scanLf A with
      | some (v, []) => some v
      | _ => none := by
  have htr := scanLf_bang_append A ['!', 'x']
  simp only [sentinelScanReal, sentinel]
  rw [show (['!', '!', 'x'] : List Char) = '!' :: ['!', 'x'] from rfl, htr]
  rcases hLf : scanLf A with _ | ⟨v, r0⟩
  · simp
  · simp only [Option.map_some']
    rcases r0 with _ | ⟨c0, t0⟩
    · simp
    · by_cases hc0 : c0 = '!'
      · subst hc0
        rcases t0 with _ | ⟨c1, t1⟩
        · simp
        · by_cases hc1 : c1 = '!'
          · exfalso
            subst hc1
            have hsuf : ('!' :: '!' :: t1 : List Char) <:+ A := scanLf_rest_suffix hLf
            have : hasBangBang A = true :=
              hasBangBang_of_suffix hsuf (by simp [hasBangBang])
            simp [this] at hA
          · simp [hc1]
      · simp [hc0]

theorem sentinelScanInt_append {A : List Char} (hA : hasBangBang A = false) :
    sentinelScanInt (A ++ sentinel) =
      match scanD A with
      | some (v, []) => some v
      | _ => none := by
  have htr := scanD_append (b := '!') (by decide) (by decide) (by decide) (by decide)
    A ['!', 'x']
  simp only [sentinelScanInt, sentinel]
  rw [show (['!', '!', 'x'] : List Char) = '!' :: ['!', 'x'] from rfl, htr]
  rcases hD : scanD A with _ | ⟨v, r0⟩
  · simp
  · simp only [Option.map_some']
    rcases r0 with _ | ⟨c0, t0⟩
    · simp
    · by_cases hc0 : c0 = '!'
      · subst hc0
        rcases t0 with _ | ⟨c1, t1⟩
        · simp
        · by_cases hc1 : c1 = '!'
          · exfalso
            subst hc1
            have hsuf : ('!' :: '!' :: t1 : List Char) <:+ A := scanD_rest_suffix hD
            have : hasBangBang A = true :=
              hasBangBang_of_suffix hsuf (by simp [hasBangBang])
            simp [this] at hA
          · simp [hc1]
      · simp [hc0]

/-- The net behaviour of `str2real`: reject when the raw input contains
`"!!"`, and otherwise succeed exactly when the `%lf` scan of the trimmed
input consumes the entire trimmed input. -/
theorem str2real_eq (s : String) :
    str2real s =
      if hasBangBang s.data then none
      else
        match scanLf (stripChars s.data) with
        | some (v, []) => some v
        | _ => none := by
  by_cases hb : hasBangBang s.data = true
  · simp [str2real, hb]
  · have hb' : hasBangBang s.data = false := by
      cases h : hasBangBang s.data
      · rfl
      · exact absurd h hb
    have hA : hasBangBang (stripChars s.data) = false := hasBangBang_stripChars hb'
    rw [str2real, if_neg (by simp [hb']), sentinelScanReal_append hA, hb']
    simp

/-! Supporting lemmas: decimal digit rendering and re-parsing. -/

theorem digitChar_facts {m : Nat} (hm : m < 10) :
    isSpaceChar (digitChar m) = false ∧ digitChar m ≠ '+' ∧ digitChar m ≠ '-' ∧
      isDigitChar (digitChar m) = true ∧ digitChar m ≠ '!' ∧
      (digitChar m).toNat = 48 + m := by
  interval_cases m <;> exact ⟨by decide, by decide, by decide, by decide, by decide, by decide⟩

theorem digitsValFrom_append (a : Nat) (l1 l2 : List Char) :
    digitsValFrom a (l1 ++ l2) = digitsValFrom (digitsValFrom a l1) l2 :=
  List.foldl_append _ _ _ _

theorem natDigitsCore_spec :
    ∀ fuel n acc, n < fuel →
      ∃ ds, natDigitsCore fuel n acc = ds ++ acc ∧ ds ≠ [] ∧
        (∀ c ∈ ds, ∃ m, m < 10 ∧ c = digitChar m) ∧ digitsValNat ds = n := by
  intro fuel
  induction fuel with
  | zero => intro n acc h; omega
  | succ fuel ih =>
    intro n acc hn
    rw [natDigitsCore]
    by_cases h10 : n < 10
    · rw [if_pos h10]
      refine ⟨[digitChar n], rfl, by simp, ?_, ?_⟩
      · intro c hc
        rw [List.mem_singleton] at hc
        exact ⟨n, h10, hc⟩
      · have := (digitChar_facts h10).2.2.2.2.2
        simp [digitsValNat, digitsValFrom, this]
    · rw [if_neg h10]
      obtain ⟨ds, hds, hne, hdig, hval⟩ := ih (n / 10) (digitChar (n % 10) :: acc) (by omega)
      refine ⟨ds ++ [digitChar (n % 10)], ?_, by simp, ?_, ?_⟩
      · rw [hds, List.append_assoc]
        rfl
      · intro c hc
        rcases List.mem_append.mp hc with h | h
        · exact hdig c h
        · rw [List.mem_singleton] at h
          exact ⟨n % 10, by omega, h⟩
      · have hlast := (digitChar_facts (show n % 10 < 10 by omega)).2.2.2.2.2
        rw [digitsValNat, digitsValFrom_append]
        rw [show digitsValFrom 0 ds = digitsValNat ds from rfl, hval]
        simp [digitsValFrom, hlast]
        omega

theorem natDigits_spec (n : Nat) :
    natDigits n ≠ [] ∧ (∀ c ∈ natDigits n, ∃ m, m < 10 ∧ c = digitChar m) ∧
      digitsValNat (natDigits n) = n := by
  obtain ⟨ds, hds, hne, hdig, hval⟩ := natDigitsCore_spec (n + 1) n [] (by omega)
  rw [natDigits, hds, List.append_nil]
  exact ⟨hne, hdig, hval⟩

theorem hasBangBang_of_no_bang {l : List Char} (h : ∀ c ∈ l, c ≠ '!') :
    hasBangBang l = false := by
  induction l with
  | nil => rfl
  | cons a t ih =>
    rcases t with _ | ⟨b, r⟩
    · rfl
    · have ha : a ≠ '!' := h a (by simp)
      simp only [hasBangBang, Bool.or_eq_false_iff]
      refine ⟨by simp [ha], ih ?_⟩
      intro c hc
      exact h c (List.mem_cons_of_mem a hc)

theorem stripChars_of_no_space {l : List Char} (h : ∀ c ∈ l, isSpaceChar c = false) :
    stripChars l = l := by
  unfold stripChars
  rw [dropWhile_of_none h,
    dropWhile_of_none (fun c hc => h c (List.mem_reverse.mp hc)),
    List.reverse_reverse]

theorem digitChar_scan_facts {m : Nat} (hm : m < 10) :
    toLowerChar (digitChar m) = digitChar m ∧ digitChar m ≠ 'i' ∧
      digitChar m ≠ 'n' ∧ digitChar m ≠ 'x' ∧ digitChar m ≠ 'X' := by
  interval_cases m <;>
    exact ⟨by decide, by decide, by decide, by decide, by decide⟩

theorem scanInfNan_none_of_digit {neg : Bool} {c0 : Char} {t0 : List Char}
    (h0 : ∃ m, m < 10 ∧ c0 = digitChar m) : scanInfNan neg (c0 :: t0) = none := by
  obtain ⟨m, hm, rfl⟩ := h0
  obtain ⟨hlo, hni, hnn, -, -⟩ := digitChar_scan_facts hm
  simp [scanInfNan, matchCI, hlo, hni, hnn]

theorem scanHexNum_none_of_digits {neg : Bool} {c0 : Char} {t0 : List Char}
    (hdig : ∀ c ∈ c0 :: t0, ∃ m, m < 10 ∧ c = digitChar m) :
    scanHexNum neg (c0 :: t0) = none := by
  rcases t0 with _ | ⟨c1, t1⟩
  · rfl
  · obtain ⟨m, hm, hc1⟩ := hdig c1 (by simp)
    obtain ⟨-, -, -, hx, hX⟩ := digitChar_scan_facts hm
    rw [← hc1] at hx hX
    simp [scanHexNum, hx, hX]

theorem scanDec_digits {ds : List Char} (hne : ds ≠ []) (neg : Bool)
    (hdig : ∀ c ∈ ds, ∃ m, m < 10 ∧ c = digitChar m) :
    scanDec neg ds = some (.fin (lfValue neg ds [] 0), []) := by
  have halldig : ∀ c ∈ ds, isDigitChar c = true := by
    intro c hc
    obtain ⟨m, hm, hcm⟩ := hdig c hc
    exact hcm ▸ (digitChar_facts hm).2.2.2.1
  obtain ⟨c0, t0, rfl⟩ := List.exists_cons_of_ne_nil hne
  simp only [scanDec]
  rw [takeWhile_all halldig, dropWhile_all halldig]
  simp [scanExp]

theorem scanLf_digits {ds : List Char} (hne : ds ≠ [])
    (hdig : ∀ c ∈ ds, ∃ m, m < 10 ∧ c = digitChar m) :
    scanLf ds = some (.fin (lfValue false ds [] 0), []) := by
  obtain ⟨c0, t0, rfl⟩ := List.exists_cons_of_ne_nil hne
  obtain ⟨m0, hm0, hc0⟩ := hdig c0 (by simp)
  obtain ⟨hsp, hpl, hmi, hdi, hbang, hnum⟩ := digitChar_facts hm0
  rw [← hc0] at hsp hpl hmi hdi
  have hnosp : ∀ c ∈ c0 :: t0, isSpaceChar c = false := by
    intro c hc
    obtain ⟨m, hm, hcm⟩ := hdig c hc
    exact hcm ▸ (digitChar_facts hm).1
  simp only [scanLf]
  rw [dropWhile_of_none hnosp]
  rw [show scanSign (c0 :: t0) = (false, c0 :: t0) from by simp [scanSign, hpl, hmi]]
  rw [scanInfNan_none_of_digit (hdig c0 (by simp)), scanHexNum_none_of_digits hdig]
  exact scanDec_digits (by simp) false hdig

theorem scanLf_neg_digits {ds : List Char} (hne : ds ≠ [])
    (hdig : ∀ c ∈ ds, ∃ m, m < 10 ∧ c = digitChar m) :
    scanLf ('-' :: ds) = some (.fin (lfValue true ds [] 0), []) := by
  obtain ⟨c0, t0, rfl⟩ := List.exists_cons_of_ne_nil hne
  have hnosp : ∀ c ∈ '-' :: c0 :: t0, isSpaceChar c = false := by
    intro c hc
    rcases List.mem_cons.mp hc with h | h
    · subst h; decide
    · obtain ⟨m, hm, hcm⟩ := hdig c h
      exact hcm ▸ (digitChar_facts hm).1
  simp only [scanLf]
  rw [dropWhile_of_none hnosp]
  rw [show scanSign ('-' :: c0 :: t0) = (true, c0 :: t0) from by simp [scanSign]]
  rw [scanInfNan_none_of_digit (hdig c0 (by simp)), scanHexNum_none_of_digits hdig]
  exact scanDec_digits (by simp) true hdig

theorem scanD_digits {ds : List Char} (hne : ds ≠ [])
    (hdig : ∀ c ∈ ds, ∃ m, m < 10 ∧ c = digitChar m) :
    scanD ds = some ((digitsValNat ds : Int), []) := by
  obtain ⟨c0, t0, rfl⟩ := List.exists_cons_of_ne_nil hne
  obtain ⟨m0, hm0, hc0⟩ := hdig c0 (by simp)
  obtain ⟨hsp, hpl, hmi, hdi, hbang, hnum⟩ := digitChar_facts hm0
  rw [← hc0] at hsp hpl hmi hdi
  have halldig : ∀ c ∈ c0 :: t0, isDigitChar c = true := by
    intro c hc
    obtain ⟨m, hm, hcm⟩ := hdig c hc
    exact hcm ▸ (digitChar_facts hm).2.2.2.1
  have hnosp : ∀ c ∈ c0 :: t0, isSpaceChar c = false := by
    intro c hc
    obtain ⟨m, hm, hcm⟩ := hdig c hc
    exact hcm ▸ (digitChar_facts hm).1
  simp only [scanD]
  rw [dropWhile_of_none hnosp]
  rw [show scanSign (c0 :: t0) = (false, c0 :: t0) from by simp [scanSign, hpl, hmi]]
  rw [takeWhile_all halldig, dropWhile_all halldig]
  simp

theorem scanD_neg_digits {ds : List Char} (hne : ds ≠ [])
    (hdig : ∀ c ∈ ds, ∃ m, m < 10 ∧ c = digitChar m) :
    scanD ('-' :: ds) = some (-(digitsValNat ds : Int), []) := by
  have halldig : ∀ c ∈ ds, isDigitChar c = true := by
    intro c hc
    obtain ⟨m, hm, hcm⟩ := hdig c hc
    exact hcm ▸ (digitChar_facts hm).2.2.2.1
  have hnosp : ∀ c ∈ '-' :: ds, isSpaceChar c = false := by
    intro c hc
    rcases List.mem_cons.mp hc with h | h
    · subst h; decide
    · obtain ⟨m, hm, hcm⟩ := hdig c h
      exact hcm ▸ (digitChar_facts hm).1
  simp only [scanD]
  rw [dropWhile_of_none hnosp]
  rw [show scanSign ('-' :: ds) = (true, ds) from by simp [scanSign]]
  rw [takeWhile_all halldig, dropWhile_all halldig]
  rcases ds with _ | ⟨c0, t0⟩
  · exact absurd rfl hne
  · simp

theorem intChars_no_bang (x : Int) : ∀ c ∈ intChars x, c ≠ '!' := by
  intro c hc
  unfold intChars at hc
  split at hc
  · rcases List.mem_cons.mp hc with h | h
    · subst h; decide
    · obtain ⟨m, hm, hcm⟩ := (natDigits_spec x.natAbs).2.1 c h
      exact hcm ▸ (digitChar_facts hm).2.2.2.2.1
  · obtain ⟨m, hm, hcm⟩ := (natDigits_spec x.toNat).2.1 c hc
    exact hcm ▸ (digitChar_facts hm).2.2.2.2.1

theorem intChars_no_space (x : Int) : ∀ c ∈ intChars x, isSpaceChar c = false := by
  intro c hc
  unfold intChars at hc
  split at hc
  · rcases List.mem_cons.mp hc with h | h
    · subst h; decide
    · obtain ⟨m, hm, hcm⟩ := (natDigits_spec x.natAbs).2.1 c h
      exact hcm ▸ (digitChar_facts hm).1
  · obtain ⟨m, hm, hcm⟩ := (natDigits_spec x.toNat).2.1 c hc
    exact hcm ▸ (digitChar_facts hm).1

theorem lfValue_digits_eq (ds : List Char) (neg : Bool) :
    lfValue neg ds [] 0 =
      if neg then -(digitsValNat ds : ℚ) else (digitsValNat ds : ℚ) := by
  have hz : digitsValNat ([] : List Char) = 0 := rfl
  cases neg <;> simp [lfValue, qpow10, hz]

theorem scanLf_intChars (x : Int) : scanLf (intChars x) = some (.fin ((x : ℚ)), []) := by
  unfold intChars
  by_cases hx : x < 0
  · rw [if_pos hx]
    obtain ⟨hne, hdig, hval⟩ := natDigits_spec x.natAbs
    rw [scanLf_neg_digits hne hdig, lfValue_digits_eq, hval]
    have hcast : ((x.natAbs : ℚ)) = -(x : ℚ) := by
      rw [Int.cast_natAbs, abs_of_neg hx]
      push_cast
      ring
    simp [hcast]
  · rw [if_neg hx]
    obtain ⟨hne, hdig, hval⟩ := natDigits_spec x.toNat
    rw [scanLf_digits hne hdig, lfValue_digits_eq, hval]
    have htn : ((x.toNat : Int)) = x := by omega
    have hcast : ((x.toNat : ℚ)) = (x : ℚ) := by
      have h1 := congrArg (fun z : Int => (z : ℚ)) htn
      push_cast at h1
      exact h1
    simp [hcast]

theorem scanD_intChars (x : Int) : scanD (intChars x) = some (x, []) := by
  unfold intChars
  by_cases hx : x < 0
  · rw [if_pos hx]
    obtain ⟨hne, hdig, hval⟩ := natDigits_spec x.natAbs
    rw [scanD_neg_digits hne hdig, hval]
    have habs : -((x.natAbs : Int)) = x := by omega
    rw [habs]
  · rw [if_neg hx]
    obtain ⟨hne, hdig, hval⟩ := natDigits_spec x.toNat
    rw [scanD_digits hne hdig, hval]
    have htn : ((x.toNat : Int)) = x := by omega
    rw [htn]

theorem str2real_int2str (x : Int) : str2real (int2str x) = some (.fin ((x : ℚ))) := by
  rw [str2real_eq]
  have hdata : (int2str x).data = intChars x := rfl
  have hno : hasBangBang (intChars x) = false := hasBangBang_of_no_bang (intChars_no_bang x)
  have hstrip : stripChars (intChars x) = intChars x :=
    stripChars_of_no_space (intChars_no_space x)
  rw [hdata, hno, if_neg (by simp), hstrip, scanLf_intChars x]

/-- The round trip at the heart of the numeric conversions: the `%d`
rendering of any representable `intp_t` value parses back to that value. -/
theorem str2int_int2str (x : Int) (h1 : intpMin ≤ x) (h2 : x ≤ intpMax) :
    str2int (int2str x) = some x := by
  have hd1 : ¬((x : ℚ) < dmin) := by
    have hle : ((intpMin : Int) : ℚ) ≤ (x : ℚ) := by exact_mod_cast h1
    have he : dmin = ((intpMin : Int) : ℚ) := by norm_num [dmin, intpMin]
    rw [he]
    exact not_lt.mpr hle
  have hd2 : ¬((x : ℚ) > dmax) := by
    have hle : (x : ℚ) ≤ ((intpMax : Int) : ℚ) := by exact_mod_cast h2
    have he : dmax = ((intpMax : Int) : ℚ) := by norm_num [dmax, intpMax]
    rw [gt_iff_lt, he]
    exact not_lt.mpr hle
  have hno : hasBangBang (intChars x) = false :=
    hasBangBang_of_no_bang (intChars_no_bang x)
  have hlt : DoubleVal.ltq (.fin ((x : ℚ))) dmin = false := by
    simp only [DoubleVal.ltq, decide_eq_false_iff_not]
    exact hd1
  have hgt : DoubleVal.gtq (.fin ((x : ℚ))) dmax = false := by
    simp only [DoubleVal.gtq, decide_eq_false_iff_not]
    exact hd2
  simp only [str2int, str2real_int2str x]
  rw [hlt, hgt, if_neg (by simp), if_neg (by simp),
    show (int2str x).data = intChars x from rfl,
    stripChars_of_no_space (intChars_no_space x),
    sentinelScanInt_append hno, scanD_intChars x]

end Parsley

/-! The claims. -/

/-- C6: for every integer `x` of the library's integer type `intp_t`
(a 32-bit `int`, so `intpMin ≤ x ≤ intpMax`), `str2int (int2str x)`
succeeds and returns exactly `x` — the base-10 rendering produced by
`int2str` always re-parses to the same value, including `INT_MIN`,
`INT_MAX`, zero, and negative values. -/
theorem C6_str2int_int2str_roundtrip (x : Int)
    (h1 : Parsley.intpMin ≤ x) (h2 : x ≤ Parsley.intpMax) :
    Parsley.str2int (Parsley.int2str x) = some x :=
  Parsley.str2int_int2str x h1 h2

/-- Witness for C6 at `INT_MIN`, `INT_MAX`, `0` and `-1`. -/
theorem C6_str2int_int2str_roundtrip_witness :
    Parsley.str2int (Parsley.int2str (-2147483648)) = some (-2147483648) ∧
    Parsley.str2int (Parsley.int2str 2147483647) = some 2147483647 ∧
    Parsley.str2int (Parsley.int2str 0) = some 0 ∧
    Parsley.str2int (Parsley.int2str (-1)) = some (-1) :=
  ⟨C6_str2int_int2str_roundtrip (-2147483648) (by decide) (by decide),
   C6_str2int_int2str_roundtrip 2147483647 (by decide) (by decide),
   C6_str2int_int2str_roundtrip 0 (by decide) (by decide),
   C6_str2int_int2str_roundtrip (-1) (by decide) (by decide)⟩

/-- C7 counterexample: the claim's "succeeds only when the entire
whitespace-trimmed string parses as a single base-10 floating literal" is
false of the program — `sscanf`'s `%lf` accepts the full C99 `strtod`
subject sequence, so `str2real` succeeds on the digit-free input `"inf"`
and on the hexadecimal input `"0x5"`, whose base-10 scan stops at the `x`
with the trailing characters `x5` left over. -/
theorem C7_base10_only_counterexample :
    Parsley.str2real "inf" = some (Parsley.DoubleVal.inf false) ∧
    Parsley.scanDec false (Parsley.stripChars "inf".data) = none ∧
    (∃ q : ℚ, Parsley.str2real "0x5" = some (Parsley.DoubleVal.fin q)) ∧
    Parsley.scanDec false (Parsley.stripChars "0x5".data) =
      some (Parsley.DoubleVal.fin (Parsley.lfValue false ['0'] [] 0), ['x', '5']) :=
  ⟨by decide, by decide, ⟨Parsley.hexValue false ['5'] [] 0, rfl⟩, rfl⟩

/-- C7 (amended): `str2real` returns `none` for every input containing the
sentinel marker `"!!"`; it returns `none` whenever the `%lf` scan of the
trimmed input leaves trailing characters (e.g. `"12x"`, `"3.14abc"`); and
it succeeds only when the entire whitespace-trimmed string is consumed as
a single C99 floating literal — base-10 or hexadecimal, or an
infinity / NaN form. -/
theorem C7_str2real_sentinel_and_trailing :
    (∀ s : String, Parsley.hasBangBang s.data = true → Parsley.str2real s = none) ∧
    (∀ (s : String) (v : Parsley.DoubleVal) (rest : List Char),
        Parsley.scanLf (Parsley.stripChars s.data) = some (v, rest) → rest ≠ [] →
        Parsley.str2real s = none) ∧
    (Parsley.str2real "12x" = none ∧ Parsley.str2real "3.14abc" = none) ∧
    (∀ (s : String) (v : Parsley.DoubleVal), Parsley.str2real s = some v →
        Parsley.scanLf (Parsley.stripChars s.data) = some (v, [])) := by
  refine ⟨?_, ?_, ⟨by decide, by decide⟩, ?_⟩
  · intro s hb
    simp [Parsley.str2real, hb]
  · intro s v rest hscan hne
    rw [Parsley.str2real_eq]
    by_cases hb : Parsley.hasBangBang s.data
    · simp [hb]
    · rw [if_neg hb, hscan]
      rcases rest with _ | ⟨c, t⟩
      · exact absurd rfl hne
      · rfl
  · intro s v hsome
    rw [Parsley.str2real_eq] at hsome
    by_cases hb : Parsley.hasBangBang s.data
    · rw [if_pos hb] at hsome
      exact absurd hsome (by simp)
    · rw [if_neg hb] at hsome
      rcases hscan : Parsley.scanLf (Parsley.stripChars s.data) with _ | ⟨v0, r0⟩
      · rw [hscan] at hsome
        exact absurd hsome (by simp)
      · rw [hscan] at hsome
        rcases r0 with _ | ⟨c, t⟩
        · injection hsome with hv
          subst hv
          rfl
        · exact absurd hsome (by simp)

/-- Witness for C7: the sentinel guard at `"a!!b"`, the trailing-garbage
rejection at `"12x"`, and the full-consumption direction at `"5."`. -/
theorem C7_str2real_sentinel_and_trailing_witness :
    Parsley.str2real "a!!b" = none ∧
    Parsley.str2real "12x" = none ∧
    Parsley.scanLf (Parsley.stripChars "5.".data) =
      some (Parsley.DoubleVal.fin (Parsley.lfValue false ['5'] [] 0), []) :=
  ⟨C7_str2real_sentinel_and_trailing.1 "a!!b" (by decide),
   C7_str2real_sentinel_and_trailing.2.1 "12x"
     (Parsley.DoubleVal.fin (Parsley.lfValue false ['1', '2'] [] 0)) ['x'] rfl (by decide),
   C7_str2real_sentinel_and_trailing.2.2.2 "5."
     (Parsley.DoubleVal.fin (Parsley.lfValue false ['5'] [] 0)) rfl⟩

/-- C8: for a Flag spec with a configured environment variable that is set,
Phase A resolution sets the working flag true exactly when the environment
value is `"1"`, `"Y"` or `"YES"` (case-sensitive exact match) and false
otherwise, leaves `isDefined` at the spec's (implicitly defined) default,
and never raises a fatal error for a flag; every flag factory defines the
implicit default. -/
theorem C8_flag_env_truthy (spec : Parsley.OptionSpec)
    (env : String → Option String) (v : String)
    (hk : spec.kind = .kFlag) (hev : spec.evIsDefined = true)
    (henv : env spec.evName = some v) :
    Parsley.resolveValue spec env =
      .ok { isDefined := spec.defaultIsDefined,
            flag := (v = "1" || v = "Y" || v = "YES"),
            str := "", ival := 0, real := 0, alreadySpecified := false,
            spec := spec } ∧
    (∀ (sp : Parsley.OptionSpec) (env2 : String → Option String),
        sp.kind = .kFlag → ∃ pv, Parsley.resolveValue sp env2 = .ok pv) ∧
    (∀ (l : String) (c : Char) (d : String) (b : Bool),
        (Parsley.flagSpec l c d b).defaultIsDefined = true) ∧
    Parsley.help.defaultIsDefined = true ∧
    Parsley.version.defaultIsDefined = true := by
  refine ⟨?_, ?_, fun l c d b => rfl, rfl, rfl⟩
  · simp [Parsley.resolveValue, hk, hev, henv]
  · intro sp env2 hk2
    simp only [Parsley.resolveValue, hk2]
    exact ⟨_, rfl⟩

/-- Witness for C8: a flag with environment variable `VERBOSE` set to
`"YES"` resolves to a true flag, applied via the general theorem. -/
theorem C8_flag_env_truthy_witness :
    Parsley.resolveValue ((Parsley.flagSpec "verbose" 'v' "" false).envVar "VERBOSE").1
      (fun n => if n = "VERBOSE" then some "YES" else none) =
      .ok { isDefined := true, flag := true, str := "", ival := 0, real := 0,
            alreadySpecified := false,
            spec := ((Parsley.flagSpec "verbose" 'v' "" false).envVar "VERBOSE").1 } := by
  have h := (C8_flag_env_truthy
    ((Parsley.flagSpec "verbose" 'v' "" false).envVar "VERBOSE").1
    (fun n => if n = "VERBOSE" then some "YES" else none) "YES"
    (by decide) (by decide) rfl).1
  simpa using h

/-- C9: applying a qualifier incompatible with the spec's kind, re-applying
an already-set qualifier, or applying `defStr` to an enum spec with a value
not among the enumerated values, returns a spec equal to the original in
every field, together with a (non-fatal) warning — the offending qualifier
is dropped and nothing else changes. -/
theorem C9_incompatible_qualifier_noop :
    (∀ (s : Parsley.OptionSpec) (d : String),
        s.kind ≠ .kStr → s.kind ≠ .kEnum →
        (s.defStr d).1 = s ∧ (s.defStr d).2.isSome = true) ∧
    (∀ (s : Parsley.OptionSpec) (d : String),
        (s.kind = .kStr ∨ s.kind = .kEnum) → s.defaultIsDefined = true →
        (s.defStr d).1 = s ∧ (s.defStr d).2.isSome = true) ∧
    (∀ (s : Parsley.OptionSpec) (d : String),
        s.kind = .kEnum → s.defaultIsDefined = false →
        Parsley.indexOf s.enumOptions d = -1 →
        (s.defStr d).1 = s ∧ (s.defStr d).2.isSome = true) ∧
    (∀ (s : Parsley.OptionSpec) (d : Int),
        s.kind ≠ .kInt → (s.defInt d).1 = s ∧ (s.defInt d).2.isSome = true) ∧
    (∀ (s : Parsley.OptionSpec) (d : Int),
        s.kind = .kInt → s.defaultIsDefined = true →
        (s.defInt d).1 = s ∧ (s.defInt d).2.isSome = true) ∧
    (∀ (s : Parsley.OptionSpec) (d : ℚ),
        s.kind ≠ .kReal → (s.defReal d).1 = s ∧ (s.defReal d).2.isSome = true) ∧
    (∀ (s : Parsley.OptionSpec) (d : ℚ),
        s.kind = .kReal → s.defaultIsDefined = true →
        (s.defReal d).1 = s ∧ (s.defReal d).2.isSome = true) ∧
    (∀ (s : Parsley.OptionSpec) (mn mx : Int),
        s.kind ≠ .kInt →
        (s.intRange mn mx).1 = s ∧ (s.intRange mn mx).2.isSome = true) ∧
    (∀ (s : Parsley.OptionSpec) (mn mx : Int),
        s.kind = .kInt → s.rangeIsDefined = true →
        (s.intRange mn mx).1 = s ∧ (s.intRange mn mx).2.isSome = true) ∧
    (∀ (s : Parsley.OptionSpec) (mn mx : ℚ),
        s.kind ≠ .kReal →
        (s.realRange mn mx).1 = s ∧ (s.realRange mn mx).2.isSome = true) ∧
    (∀ (s : Parsley.OptionSpec) (mn mx : ℚ),
        s.kind = .kReal → s.rangeIsDefined = true →
        (s.realRange mn mx).1 = s ∧ (s.realRange mn mx).2.isSome = true) ∧
    (∀ (s : Parsley.OptionSpec) (n : String),
        s.evIsDefined = true →
        (s.envVar n).1 = s ∧ (s.envVar n).2.isSome = true) := by
  refine ⟨?_, ?_, ?_, ?_, ?_, ?_, ?_, ?_, ?_, ?_, ?_, ?_⟩
  · intro s d h1 h2
    simp [Parsley.OptionSpec.defStr, h1, h2]
  · intro s d hk hd
    rcases hk with hk | hk <;> simp [Parsley.OptionSpec.defStr, hk, hd]
  · intro s d hk hd hidx
    simp [Parsley.OptionSpec.defStr, hk, hd, hidx]
  · intro s d h1
    simp [Parsley.OptionSpec.defInt, h1]
  · intro s d hk hd
    simp [Parsley.OptionSpec.defInt, hk, hd]
  · intro s d h1
    simp [Parsley.OptionSpec.defReal, h1]
  · intro s d hk hd
    simp [Parsley.OptionSpec.defReal, hk, hd]
  · intro s mn mx h1
    simp [Parsley.OptionSpec.intRange, h1]
  · intro s mn mx hk hr
    simp [Parsley.OptionSpec.intRange, hk, hr]
  · intro s mn mx h1
    simp [Parsley.OptionSpec.realRange, h1]
  · intro s mn mx hk hr
    simp [Parsley.OptionSpec.realRange, hk, hr]
  · intro s n hev
    simp [Parsley.OptionSpec.envVar, hev]

/-- Witness for C9: each offending qualifier application on a concrete
spec leaves the spec unchanged and warns. -/
theorem C9_incompatible_qualifier_noop_witness :
    ((Parsley.intSpec "i" 'i' "" false).defStr "a").1 = Parsley.intSpec "i" 'i' "" false ∧
    (((Parsley.strSpec "s" 's' "" false).defStr "a").1.defStr "b").1 =
      ((Parsley.strSpec "s" 's' "" false).defStr "a").1 ∧
    ((Parsley.enumSpec "e" 'e' "" ["aaa", "bbb"] false).defStr "zzz").1 =
      Parsley.enumSpec "e" 'e' "" ["aaa", "bbb"] false ∧
    ((Parsley.strSpec "s" 's' "" false).defInt 3).1 = Parsley.strSpec "s" 's' "" false ∧
    (((Parsley.intSpec "i" 'i' "" false).defInt 3).1.defInt 4).1 =
      ((Parsley.intSpec "i" 'i' "" false).defInt 3).1 ∧
    ((Parsley.strSpec "s" 's' "" false).defReal 3).1 = Parsley.strSpec "s" 's' "" false ∧
    ((Parsley.realSpec "r" 'r' "" false).intRange 1 2).1 =
      Parsley.realSpec "r" 'r' "" false ∧
    (((Parsley.intSpec "i" 'i' "" false).intRange 1 2).1.intRange 3 4).1 =
      ((Parsley.intSpec "i" 'i' "" false).intRange 1 2).1 ∧
    ((Parsley.intSpec "i" 'i' "" false).realRange 1 2).1 =
      Parsley.intSpec "i" 'i' "" false ∧
    (((Parsley.strSpec "s" 's' "" false).envVar "EV").1.envVar "EV2").1 =
      ((Parsley.strSpec "s" 's' "" false).envVar "EV").1 := by
  refine ⟨(C9_incompatible_qualifier_noop.1 _ "a" (by decide) (by decide)).1,
    (C9_incompatible_qualifier_noop.2.1 _ "b" (Or.inl (by decide)) (by decide)).1,
    (C9_incompatible_qualifier_noop.2.2.1 _ "zzz" (by decide) (by decide) (by decide)).1,
    (C9_incompatible_qualifier_noop.2.2.2.1 _ 3 (by decide)).1,
    (C9_incompatible_qualifier_noop.2.2.2.2.1 _ 4 (by decide) (by decide)).1,
    (C9_incompatible_qualifier_noop.2.2.2.2.2.1 _ 3 (by decide)).1,
    (C9_incompatible_qualifier_noop.2.2.2.2.2.2.2.1 _ 1 2 (by decide)).1,
    (C9_incompatible_qualifier_noop.2.2.2.2.2.2.2.2.1 _ 3 4 (by decide) (by decide)).1,
    (C9_incompatible_qualifier_noop.2.2.2.2.2.2.2.2.2.1 _ 1 2 (by decide)).1,
    (C9_incompatible_qualifier_noop.2.2.2.2.2.2.2.2.2.2.2 _ "EV2" (by decide)).1⟩

/-- C10: `envVar` with an empty string on a spec with no environment
variable yet set emits no warning and leaves the qualifier undefined, so a
later `envVar` with a non-empty name still succeeds. -/
theorem C10_envVar_empty_name (s : Parsley.OptionSpec)
    (h : s.evIsDefined = false) :
    (s.envVar "").2 = none ∧
    (s.envVar "").1.evIsDefined = false ∧
    (s.envVar "").1.evName = "" ∧
    (∀ n : String, n.length > 0 →
      ((s.envVar "").1.envVar n).1.evIsDefined = true ∧
      ((s.envVar "").1.envVar n).1.evName = n ∧
      ((s.envVar "").1.envVar n).2 = none) := by
  have h0 : (s.envVar "").1 =
      { s with evName := "", evIsDefined := false } := by
    simp [Parsley.OptionSpec.envVar, h]
  refine ⟨by simp [Parsley.OptionSpec.envVar, h], by rw [h0], by rw [h0], ?_⟩
  intro n hn
  rw [h0]
  simp [Parsley.OptionSpec.envVar, hn]

/-- Witness for C10 on a concrete string spec and the name `"FOO"`. -/
theorem C10_envVar_empty_name_witness :
    ((Parsley.strSpec "x" 'x' "" false).envVar "").2 = none ∧
    ((Parsley.strSpec "x" 'x' "" false).envVar "").1.evIsDefined = false ∧
    (((Parsley.strSpec "x" 'x' "" false).envVar "").1.envVar "FOO").1.evIsDefined = true := by
  have h := C10_envVar_empty_name (Parsley.strSpec "x" 'x' "" false) (by decide)
  exact ⟨h.1, h.2.1, (h.2.2.2 "FOO" (by decide)).1⟩

/-- The flag `m_specListOkay` says exactly that no ordered pair of specs conflicts. -/
theorem specListOkay_eq_pairwise (l : List Parsley.OptionSpec) :
    Parsley.specListOkay l = true ↔
      l.Pairwise (fun a b => Parsley.specsConflict a b = false) := by
  induction l with
  | nil => simp [Parsley.specListOkay]
  | cons s rest ih =>
    rw [Parsley.specListOkay, Bool.and_eq_true, List.all_eq_true, List.pairwise_cons, ih]
    constructor
    · rintro ⟨h1, h2⟩
      exact ⟨fun t ht => by simpa using h1 t ht, h2⟩
    · rintro ⟨h1, h2⟩
      exact ⟨fun t ht => by simpa using h1 t ht, h2⟩

/-- C2: a spec list containing two distinct specs with equal long names, or
with equal short names where the earlier one has a short name at all, makes
the registry permanently invalid: the constructor's check fails and every
subsequent `process` call, for any arguments, environment and
`skipProgramName` value, fails with the fixed "option specification errors"
message (the constructor itself cannot signal an error — the model is a
total function). -/
theorem C2_duplicate_names_invalidate
    (pre mid post : List Parsley.OptionSpec) (a b : Parsley.OptionSpec)
    (hconf : a.longName = b.longName ∨
      (a.shortName ≠ '\x00' ∧ a.shortName = b.shortName)) :
    Parsley.specListOkay (pre ++ a :: (mid ++ b :: post)) = false ∧
    ∀ (env : String → Option String) (arguments : List String) (skip : Bool),
      Parsley.process (pre ++ a :: (mid ++ b :: post)) env arguments skip =
        .error "option specification errors" := by
  have hc : Parsley.specsConflict a b = true := by
    unfold Parsley.specsConflict
    rcases hconf with h | ⟨h1, h2⟩
    · simp [h]
    · rw [h2] at h1
      simp [h1, h2]
  have hfalse : Parsley.specListOkay (pre ++ a :: (mid ++ b :: post)) = false := by
    cases hOk : Parsley.specListOkay (pre ++ a :: (mid ++ b :: post))
    · rfl
    · exfalso
      have hpw := (specListOkay_eq_pairwise _).mp hOk
      have h1 : [b].Sublist (b :: post) := (List.nil_sublist post).cons₂ b
      have h2 : [b].Sublist (mid ++ b :: post) :=
        h1.trans (List.sublist_append_right mid (b :: post))
      have h3 : [a, b].Sublist (a :: (mid ++ b :: post)) := h2.cons₂ a
      have h4 : [a, b].Sublist (pre ++ a :: (mid ++ b :: post)) :=
        h3.trans (List.sublist_append_right pre _)
      have hr : Parsley.specsConflict a b = false := by
        have := hpw.sublist h4
        simpa [List.pairwise_cons] using this
      rw [hc] at hr
      exact Bool.noConfusion hr
  refine ⟨hfalse, fun env arguments skip => ?_⟩
  simp [Parsley.process, hfalse]

/-- Witness for C2: two specs sharing the long name `dup` invalidate the
registry and make `process` fail on a benign input. -/
theorem C2_duplicate_names_invalidate_witness :
    Parsley.specListOkay
      [Parsley.strSpec "dup" 'a' "" false, Parsley.intSpec "dup" 'b' "" false] = false ∧
    Parsley.process
      [Parsley.strSpec "dup" 'a' "" false, Parsley.intSpec "dup" 'b' "" false]
      (fun _ => none) ["prog"] true = .error "option specification errors" := by
  have h := C2_duplicate_names_invalidate [] []
    [] (Parsley.strSpec "dup" 'a' "" false) (Parsley.intSpec "dup" 'b' "" false)
    (Or.inl (by decide))
  exact ⟨h.1, h.2 (fun _ => none) ["prog"] true⟩

/-- C5: the `--` token (before the latch is set) sets the latch and is
itself discarded; an empty token or a token not starting with `-` is
appended to the parameters and sets the latch; once the latch is set,
every remaining token is appended to the parameters unconditionally in
order; and with zero specs, `["prog", "--", "--looks-like-option"]` with
the program name skipped succeeds with parameters
`["--looks-like-option"]`. -/
theorem C5_token_scan_latch :
    (∀ (sl : List Parsley.OptionSpec) (values : List (String × Parsley.ProxyValue))
        (params rest : List String),
        Parsley.scanArgs sl values params true rest =
          .ok (values, params ++ rest, false)) ∧
    (∀ (sl : List Parsley.OptionSpec) (values : List (String × Parsley.ProxyValue))
        (params rest : List String),
        Parsley.scanArgs sl values params false ("--" :: rest) =
          Parsley.scanArgs sl values params true rest) ∧
    (∀ (sl : List Parsley.OptionSpec) (values : List (String × Parsley.ProxyValue))
        (params : List String) (arg : String) (rest : List String),
        arg.length = 0 ∨ arg.data.head? ≠ some '-' →
        Parsley.scanArgs sl values params false (arg :: rest) =
          Parsley.scanArgs sl values (params ++ [arg]) true rest) ∧
    Parsley.process [] (fun _ => none) ["prog", "--", "--looks-like-option"] true =
      .ok ([], ["--looks-like-option"]) := by
  refine ⟨?_, ?_, ?_, ?_⟩
  · intro sl values params rest
    induction rest generalizing params with
    | nil => simp [Parsley.scanArgs]
    | cons a t ih =>
      rw [Parsley.scanArgs]
      simp only [if_pos rfl]
      rw [ih (params ++ [a])]
      simp
  · intro sl values params rest
    simp [Parsley.scanArgs]
  · intro sl values params arg rest h
    have hne : arg ≠ "--" := by
      rintro rfl
      rcases h with h | h
      · exact absurd h (by decide)
      · exact h (by decide)
    rw [Parsley.scanArgs]
    simp only [Bool.false_eq_true, if_false, if_neg hne, if_pos h]
  · simp [Parsley.process, Parsley.specListOkay, Parsley.phaseA, Parsley.scanArgs]

/-- Witness for C5: the latch behaviour at concrete inputs. -/
theorem C5_token_scan_latch_witness :
    Parsley.scanArgs [] [] ["p0"] true ["a", "-b"] = .ok ([], ["p0", "a", "-b"], false) ∧
    Parsley.scanArgs [] [] [] false ["par", "x"] =
      Parsley.scanArgs [] [] ["par"] true ["x"] :=
  ⟨C5_token_scan_latch.1 [] [] ["p0"] ["a", "-b"],
   C5_token_scan_latch.2.2.1 [] [] [] "par" ["x"] (Or.inr (by decide))⟩

/-- C3: when no singleton short-circuited the scan and some required spec's
resolved value is still undefined, `process` fails with a message of the
form `"a value is required for: "` followed by the option's name rendering
(`"-c, --long"` with a short name, `"--long"` otherwise); in particular one
required string option `--name` with short name `-n` and no default on input `["prog"]`
(skipping the program name) yields exactly that error naming `-n, --name`. -/
theorem C3_required_option_error
    (specList : List Parsley.OptionSpec) (env : String → Option String)
    (arguments : List String) (skip : Bool)
    (values values2 : List (String × Parsley.ProxyValue)) (params : List String)
    (nv : String × Parsley.ProxyValue)
    (hOk : Parsley.specListOkay specList = true)
    (hA : Parsley.phaseA env specList = .ok values)
    (hScan : Parsley.scanArgs specList values [] false
        (if skip then arguments.drop 1 else arguments) = .ok (values2, params, false))
    (hFind : values2.find? (fun nv => nv.2.spec.isRequired && !nv.2.isDefined) = some nv) :
    Parsley.process specList env arguments skip =
      .error ("a value is required for: " ++ nv.2.spec.name) ∧
    nv.2.spec.isRequired = true ∧ nv.2.isDefined = false ∧
    (∀ s : Parsley.OptionSpec,
      (s.shortName ≠ '\x00' →
        s.name = "-" ++ String.mk [s.shortName] ++ ", --" ++ s.longName) ∧
      (s.shortName = '\x00' → s.name = "--" ++ s.longName)) ∧
    Parsley.process [Parsley.strSpec "name" 'n' "" true] (fun _ => none) ["prog"] true =
      .error "a value is required for: -n, --name" := by
  refine ⟨?_, ?_, ?_, ?_, ?_⟩
  · rw [Parsley.process, if_neg (by simp [hOk]), hA]
    simp only []
    rw [hScan]
    simp only [Bool.false_eq_true, if_false, hFind]
  · have := List.find?_some hFind
    simp only [Bool.and_eq_true] at this
    exact this.1
  · have := List.find?_some hFind
    simp only [Bool.and_eq_true, Bool.not_eq_true'] at this
    exact this.2
  · intro s
    constructor
    · intro h
      rw [Parsley.OptionSpec.name, if_pos h]
    · intro h
      rw [Parsley.OptionSpec.name, if_neg (by simp [h])]
  · simp [Parsley.process, Parsley.specListOkay, Parsley.phaseA, Parsley.scanArgs,
      Parsley.resolveValue, Parsley.strSpec, Parsley.OptionSpec.name]

/-- The working value of the C3 witness's lone required string spec after
phase A. -/
def c3Value : Parsley.ProxyValue :=
  { isDefined := false, flag := false, str := "", ival := 0, real := 0,
    alreadySpecified := false, spec := Parsley.strSpec "name" 'n' "" true }

/-- Witness for C3: the scenario of the claim, derived by applying the
general theorem at the concrete registry. -/
theorem C3_required_option_error_witness :
    Parsley.process [Parsley.strSpec "name" 'n' "" true] (fun _ => none) ["prog"] true =
      .error ("a value is required for: " ++ ("name", c3Value).2.spec.name) ∧
    ("name", c3Value).2.spec.isRequired = true := by
  have h := C3_required_option_error [Parsley.strSpec "name" 'n' "" true]
    (fun _ => none) ["prog"] true [("name", c3Value)] [("name", c3Value)] []
    ("name", c3Value) (by decide) rfl (by simp [Parsley.scanArgs]) (by decide)
  exact ⟨h.1, h.2.1⟩

/-- C1: recognizing a singleton option during the token scan (including the
successful parse of its argument value) makes the scan return success
immediately — the remaining tokens are not consumed — and a scan that ended
early this way makes `process` return success without running the
required-option check. -/
theorem C1_singleton_short_circuit :
    (∀ (sl : List Parsley.OptionSpec) (values : List (String × Parsley.ProxyValue))
        (params : List String) (arg : String) (rest : List String)
        (spec : Parsley.OptionSpec) (v2 : Parsley.ProxyValue) (rest2 : List String),
        arg ≠ "--" →
        arg.data.head? = some '-' →
        Parsley.findSpec sl arg = .ok spec →
        (Parsley.lookupValue values spec.longName).alreadySpecified = false →
        Parsley.applyOption spec
          { Parsley.lookupValue values spec.longName with alreadySpecified := true }
          rest = .ok (v2, rest2) →
        spec.isSingleton = true →
        Parsley.scanArgs sl values params false (arg :: rest) =
          .ok (Parsley.setValue values spec.longName v2, params, true)) ∧
    (∀ (sl : List Parsley.OptionSpec) (env : String → Option String)
        (arguments : List String) (skip : Bool)
        (values values2 : List (String × Parsley.ProxyValue)) (params : List String),
        Parsley.specListOkay sl = true →
        Parsley.phaseA env sl = .ok values →
        Parsley.scanArgs sl values [] false
          (if skip then arguments.drop 1 else arguments) = .ok (values2, params, true) →
        Parsley.process sl env arguments skip = .ok (values2, params)) := by
  constructor
  · intro sl values params arg rest spec v2 rest2 hne hhead hfind halready happly hsing
    have hcond : ¬(arg.length = 0 ∨ arg.data.head? ≠ some '-') := by
      rintro (h | h)
      · rcases arg with ⟨cs⟩
        rcases cs with _ | ⟨c, t⟩
        · exact absurd hhead (by simp)
        · exact absurd h (by simp [String.length])
      · exact h hhead
    rw [Parsley.scanArgs]
    rw [if_neg (by simp), if_neg hne, if_neg hcond, hfind]
    simp only [halready, Bool.false_eq_true, if_false]
    simp only [] at happly
    split
    · rename_i e h
      rw [h] at happly
      exact absurd happly (by simp)
    · rename_i value2 rest2' h
      rw [h] at happly
      injection happly with h1
      injection h1 with hv hr
      subst hv
      simp [hsing]
  · intro sl env arguments skip values values2 params hOk hA hScan
    rw [Parsley.process, if_neg (by simp [hOk]), hA]
    simp only []
    rw [hScan]
    simp

/-- The `--help` working value after phase A in the C1 witness registry. -/
def c1HelpValue0 : Parsley.ProxyValue :=
  { isDefined := true, flag := false, str := "", ival := 0, real := 0,
    alreadySpecified := false, spec := Parsley.help }

/-- The `--help` working value after the singleton is recognized. -/
def c1HelpValue1 : Parsley.ProxyValue :=
  { isDefined := true, flag := true, str := "", ival := 0, real := 0,
    alreadySpecified := true, spec := Parsley.help }

/-- The (never supplied) required `--name` working value in the C1 witness. -/
def c1NameValue : Parsley.ProxyValue :=
  { isDefined := false, flag := false, str := "", ival := 0, real := 0,
    alreadySpecified := false, spec := Parsley.strSpec "name" 'n' "" true }

/-- Witness for C1: with the singleton `--help` and a required `--name`
that is never supplied, `["prog", "--help"]` succeeds — the required-option
check never runs — derived by applying both parts of the theorem. -/
theorem C1_singleton_short_circuit_witness :
    Parsley.process [Parsley.help, Parsley.strSpec "name" 'n' "" true] (fun _ => none)
      ["prog", "--help"] true =
      .ok ([("help", c1HelpValue1), ("name", c1NameValue)], []) := by
  have ha := C1_singleton_short_circuit.1
    [Parsley.help, Parsley.strSpec "name" 'n' "" true]
    [("help", c1HelpValue0), ("name", c1NameValue)] [] "--help" []
    Parsley.help c1HelpValue1 []
    (by decide) (by decide) rfl (by decide) rfl rfl
  exact C1_singleton_short_circuit.2
    [Parsley.help, Parsley.strSpec "name" 'n' "" true] (fun _ => none)
    ["prog", "--help"] true
    [("help", c1HelpValue0), ("name", c1NameValue)]
    [("help", c1HelpValue1), ("name", c1NameValue)] []
    (by decide) rfl ha

/-- A `-`-headed token is not empty and not headless. -/
theorem head_dash_cond {arg : String} (hhead : arg.data.head? = some '-') :
    ¬(arg.length = 0 ∨ arg.data.head? ≠ some '-') := by
  rintro (h | h)
  · rcases arg with ⟨cs⟩
    rcases cs with _ | ⟨c, t⟩
    · exact absurd hhead (by simp)
    · exact absurd h (by simp [String.length])
  · exact h hhead

/-- One non-singleton option token of the scan: the option is recognized,
its working value updated, and the scan continues on the tokens its
argument did not consume. -/
theorem scanArgs_option_step
    (sl : List Parsley.OptionSpec) (values : List (String × Parsley.ProxyValue))
    (params : List String) (arg : String) (rest : List String)
    (spec : Parsley.OptionSpec) (v2 : Parsley.ProxyValue) (rest2 : List String)
    (hne : arg ≠ "--") (hhead : arg.data.head? = some '-')
    (hfind : Parsley.findSpec sl arg = .ok spec)
    (halready : (Parsley.lookupValue values spec.longName).alreadySpecified = false)
    (happly : Parsley.applyOption spec
      { Parsley.lookupValue values spec.longName with alreadySpecified := true } rest =
      .ok (v2, rest2))
    (hsing : spec.isSingleton = false) :
    Parsley.scanArgs sl values params false (arg :: rest) =
      Parsley.scanArgs sl (Parsley.setValue values spec.longName v2) params false rest2 := by
  rw [Parsley.scanArgs]
  rw [if_neg (by simp), if_neg hne, if_neg (head_dash_cond hhead), hfind]
  simp only [halready, Bool.false_eq_true, if_false]
  simp only [] at happly
  split
  · rename_i e h
    rw [h] at happly
    exact absurd happly (by simp)
  · rename_i value2 rest2' h
    rw [h] at happly
    injection happly with h1
    injection h1 with hv hr
    subst hv
    subst hr
    simp [hsing]

/-- One option token whose handling fails: the scan propagates the error. -/
theorem scanArgs_option_step_error
    (sl : List Parsley.OptionSpec) (values : List (String × Parsley.ProxyValue))
    (params : List String) (arg : String) (rest : List String)
    (spec : Parsley.OptionSpec) (e : String)
    (hne : arg ≠ "--") (hhead : arg.data.head? = some '-')
    (hfind : Parsley.findSpec sl arg = .ok spec)
    (halready : (Parsley.lookupValue values spec.longName).alreadySpecified = false)
    (happly : Parsley.applyOption spec
      { Parsley.lookupValue values spec.longName with alreadySpecified := true } rest =
      .error e) :
    Parsley.scanArgs sl values params false (arg :: rest) = .error e := by
  rw [Parsley.scanArgs]
  rw [if_neg (by simp), if_neg hne, if_neg (head_dash_cond hhead), hfind]
  simp only [halready, Bool.false_eq_true, if_false]
  simp only [] at happly
  split
  · rename_i e' h
    rw [h] at happly
    injection happly with h1
    subst h1
    rfl
  · rename_i value2 rest2' h
    rw [h] at happly
    exact absurd happly (by simp)

/-- The function `process` propagates a token-scan error. -/
theorem process_scan_error
    (sl : List Parsley.OptionSpec) (env : String → Option String)
    (arguments : List String) (skip : Bool)
    (values : List (String × Parsley.ProxyValue)) (e : String)
    (hOk : Parsley.specListOkay sl = true)
    (hA : Parsley.phaseA env sl = .ok values)
    (hScan : Parsley.scanArgs sl values [] false
      (if skip then arguments.drop 1 else arguments) = .error e) :
    Parsley.process sl env arguments skip = .error e := by
  rw [Parsley.process, if_neg (by simp [hOk]), hA]
  simp only []
  rw [hScan]

/-- The function `process` succeeds after a completed scan when no required option is
left undefined. -/
theorem process_scan_complete
    (sl : List Parsley.OptionSpec) (env : String → Option String)
    (arguments : List String) (skip : Bool)
    (values values2 : List (String × Parsley.ProxyValue)) (params : List String)
    (hOk : Parsley.specListOkay sl = true)
    (hA : Parsley.phaseA env sl = .ok values)
    (hScan : Parsley.scanArgs sl values [] false
      (if skip then arguments.drop 1 else arguments) = .ok (values2, params, false))
    (hFind : values2.find? (fun nv => nv.2.spec.isRequired && !nv.2.isDefined) = none) :
    Parsley.process sl env arguments skip = .ok (values2, params) := by
  rw [Parsley.process, if_neg (by simp [hOk]), hA]
  simp only []
  rw [hScan]
  simp only [Bool.false_eq_true, if_false, hFind]

/-- The ranged integer spec `--count` with range `[1, 10]` of the C4
scenario. -/
def c4Spec : Parsley.OptionSpec := ((Parsley.intSpec "count" 'c' "" false).intRange 1 10).1

/-- Its working value after phase A. -/
def c4Value0 : Parsley.ProxyValue :=
  { isDefined := false, flag := false, str := "", ival := 0, real := 0,
    alreadySpecified := false, spec := c4Spec }

/-- Its working value after `--count 10` is accepted. -/
def c4Value10 : Parsley.ProxyValue :=
  { isDefined := true, flag := false, str := "", ival := 10, real := 0,
    alreadySpecified := true, spec := c4Spec }

/-- C4 (amended): for Integer and Real specs with a configured range, the
token scan accepts a parsed value exactly equal to `min` or `max`
(boundaries included) and rejects every value strictly outside, with a
fatal message stating the configured range in the form `"min to max"` as
cut to the 39 characters of the 40-byte formatting buffer (integer ranges
always fit; only very wide real bounds are cut short); in particular
`--count` ranged `[1, 10]` rejects `15` with the full message and accepts
the boundary value `10`. -/
theorem C4_range_boundaries :
    (∀ (spec : Parsley.OptionSpec) (value : Parsley.ProxyValue)
        (tok : String) (rest : List String) (v : Int),
        spec.kind = .kInt → spec.rangeIsDefined = true →
        Parsley.str2int tok = some v →
        spec.minIntValue ≤ v → v ≤ spec.maxIntValue →
        Parsley.applyOption spec value (tok :: rest) =
          .ok ({ value with ival := v, isDefined := true }, rest)) ∧
    (∀ (spec : Parsley.OptionSpec) (value : Parsley.ProxyValue)
        (tok : String) (rest : List String) (v : Int),
        spec.kind = .kInt → spec.rangeIsDefined = true →
        Parsley.str2int tok = some v →
        (v < spec.minIntValue ∨ v > spec.maxIntValue) →
        Parsley.applyOption spec value (tok :: rest) =
          .error ("invalid value for " ++ spec.name ++ " : " ++ Parsley.int2str v ++
            " is out of range " ++ spec.range ++ ".")) ∧
    (∀ spec : Parsley.OptionSpec, spec.kind = .kInt → spec.rangeIsDefined = true →
        spec.range = String.mk ((Parsley.int2str spec.minIntValue ++ " to " ++
          Parsley.int2str spec.maxIntValue).data.take 39)) ∧
    (∀ (spec : Parsley.OptionSpec) (value : Parsley.ProxyValue)
        (tok : String) (rest : List String) (v : ℚ),
        spec.kind = .kReal → spec.rangeIsDefined = true →
        Parsley.str2real tok = some (.fin v) →
        spec.minRealValue ≤ v → v ≤ spec.maxRealValue →
        Parsley.applyOption spec value (tok :: rest) =
          .ok ({ value with real := .fin v, isDefined := true }, rest)) ∧
    (∀ (spec : Parsley.OptionSpec) (value : Parsley.ProxyValue)
        (tok : String) (rest : List String) (v : ℚ),
        spec.kind = .kReal → spec.rangeIsDefined = true →
        Parsley.str2real tok = some (.fin v) →
        (v < spec.minRealValue ∨ v > spec.maxRealValue) →
        Parsley.applyOption spec value (tok :: rest) =
          .error ("invalid value for " ++ spec.name ++ " : " ++
            Parsley.real2str (.fin v) ++
            " is out of range " ++ spec.range ++ ".")) ∧
    (∀ spec : Parsley.OptionSpec, spec.kind = .kReal → spec.rangeIsDefined = true →
        spec.range = String.mk ((Parsley.real2str (.fin spec.minRealValue) ++ " to " ++
          Parsley.real2str (.fin spec.maxRealValue)).data.take 39)) ∧
    Parsley.process [c4Spec] (fun _ => none) ["prog", "--count", "15"] true =
      .error "invalid value for -c, --count : 15 is out of range 1 to 10." ∧
    Parsley.process [c4Spec] (fun _ => none) ["prog", "--count", "10"] true =
      .ok ([("count", c4Value10)], []) := by
  have h15 : Parsley.str2int "15" = some 15 := by
    have h := Parsley.str2int_int2str 15 (by decide) (by decide)
    rwa [show Parsley.int2str 15 = "15" from by decide] at h
  have h10 : Parsley.str2int "10" = some 10 := by
    have h := Parsley.str2int_int2str 10 (by decide) (by decide)
    rwa [show Parsley.int2str 10 = "10" from by decide] at h
  refine ⟨?_, ?_, ?_, ?_, ?_, ?_, ?_, ?_⟩
  · intro spec value tok rest v hk hr hv hmin hmax
    simp only [Parsley.applyOption, hk, hv]
    rw [if_neg]
    rintro ⟨-, h | h⟩ <;> omega
  · intro spec value tok rest v hk hr hv hout
    simp only [Parsley.applyOption, hk, hv]
    rw [if_pos ⟨hr, hout⟩]
  · intro spec hk hr
    rw [Parsley.OptionSpec.range, if_neg (by simp [hk]), if_neg (by simp [hr]),
      if_pos hk, if_pos hk]
  · intro spec value tok rest v hk hr hv hmin hmax
    simp only [Parsley.applyOption, hk, hv]
    rw [if_neg]
    rintro ⟨-, h | h⟩
    · simp only [Parsley.DoubleVal.ltq, decide_eq_true_eq] at h
      exact absurd hmin (not_le.mpr h)
    · simp only [Parsley.DoubleVal.gtq, decide_eq_true_eq] at h
      exact absurd hmax (not_le.mpr h)
  · intro spec value tok rest v hk hr hv hout
    have hout2 : Parsley.DoubleVal.ltq (.fin v) spec.minRealValue = true ∨
        Parsley.DoubleVal.gtq (.fin v) spec.maxRealValue = true := by
      rcases hout with h | h
      · refine Or.inl ?_
        simp only [Parsley.DoubleVal.ltq, decide_eq_true_eq]
        exact h
      · refine Or.inr ?_
        simp only [Parsley.DoubleVal.gtq, decide_eq_true_eq]
        exact h
    simp only [Parsley.applyOption, hk, hv]
    rw [if_pos ⟨hr, hout2⟩]
  · intro spec hk hr
    rw [Parsley.OptionSpec.range, if_neg (by simp [hk]), if_neg (by simp [hr]),
      if_neg (by simp [hk]), if_neg (by simp [hk])]
  · have hk : c4Spec.kind = .kInt := rfl
    have happly : Parsley.applyOption c4Spec
        { Parsley.lookupValue [("count", c4Value0)] c4Spec.longName with
          alreadySpecified := true } ["15"] =
        .error "invalid value for -c, --count : 15 is out of range 1 to 10." := by
      simp only [Parsley.applyOption, hk, h15]
      rw [if_pos ⟨rfl, Or.inr (by decide)⟩,
        show c4Spec.name = "-c, --count" from by decide,
        show Parsley.int2str 15 = "15" from by decide,
        show c4Spec.range = "1 to 10" from by decide]
      rfl
    have hscan := scanArgs_option_step_error [c4Spec] [("count", c4Value0)] [] "--count"
      ["15"] c4Spec _ (by decide) (by decide) rfl (by decide) happly
    exact process_scan_error [c4Spec] (fun _ => none) ["prog", "--count", "15"] true
      [("count", c4Value0)] _ rfl rfl hscan
  · have hk : c4Spec.kind = .kInt := rfl
    have happly : Parsley.applyOption c4Spec
        { Parsley.lookupValue [("count", c4Value0)] c4Spec.longName with
          alreadySpecified := true } ["10"] = .ok (c4Value10, []) := by
      simp only [Parsley.applyOption, hk, h10]
      rw [if_neg]
      · rfl
      · rintro ⟨-, h | h⟩ <;> exact absurd h (by decide)
    have hscan := scanArgs_option_step [c4Spec] [("count", c4Value0)] [] "--count" ["10"]
      c4Spec c4Value10 [] (by decide) (by decide) rfl (by decide) happly rfl
    have hscan2 : Parsley.scanArgs [c4Spec]
        (Parsley.setValue [("count", c4Value0)] c4Spec.longName c4Value10) [] false [] =
        .ok ([("count", c4Value10)], [], false) := by
      rw [Parsley.scanArgs]
      rfl
    exact process_scan_complete [c4Spec] (fun _ => none) ["prog", "--count", "10"] true
      [("count", c4Value0)] [("count", c4Value10)] [] rfl rfl (hscan.trans hscan2)
      (by decide)

/-- The ranged real spec `--level` with range `[1, 10]` used by the C4
witness. -/
def c4RSpec : Parsley.OptionSpec :=
  ((Parsley.realSpec "level" 'l' "" false).realRange 1 10).1

/-- Its working value after phase A. -/
def c4RValue0 : Parsley.ProxyValue :=
  { isDefined := false, flag := false, str := "", ival := 0, real := 0,
    alreadySpecified := false, spec := c4RSpec }

/-- Evaluation of `str2real` on the literal `"10"`, via the round trip. -/
theorem str2real_ten : Parsley.str2real "10" = some (.fin (10 : ℚ)) := by
  have h := Parsley.str2real_int2str 10
  rwa [show Parsley.int2str 10 = "10" from by decide,
    show (((10 : Int)) : ℚ) = (10 : ℚ) from by norm_num] at h

/-- Evaluation of `str2real` on the literal `"15"`, via the round trip. -/
theorem str2real_fifteen : Parsley.str2real "15" = some (.fin (15 : ℚ)) := by
  have h := Parsley.str2real_int2str 15
  rwa [show Parsley.int2str 15 = "15" from by decide,
    show (((15 : Int)) : ℚ) = (15 : ℚ) from by norm_num] at h

/-- Evaluation of `str2int` on the literal `"1"`, via the round trip. -/
theorem str2int_one : Parsley.str2int "1" = some 1 := by
  have h := Parsley.str2int_int2str 1 (by decide) (by decide)
  rwa [show Parsley.int2str 1 = "1" from by decide] at h

/-- Evaluation of `str2int` on the literal `"15"`, via the round trip. -/
theorem str2int_fifteen : Parsley.str2int "15" = some 15 := by
  have h := Parsley.str2int_int2str 15 (by decide) (by decide)
  rwa [show Parsley.int2str 15 = "15" from by decide] at h

/-- Witness for C4: the integer range `[1, 10]` accepts the boundary `1`
and rejects `15` with the range in the message; the real range `[1, 10]`
accepts the boundary `10` and rejects `15`. -/
theorem C4_range_boundaries_witness :
    Parsley.applyOption c4Spec c4Value0 ["1", "zzz"] =
      .ok ({ c4Value0 with ival := 1, isDefined := true }, ["zzz"]) ∧
    Parsley.applyOption c4Spec c4Value0 ["15"] =
      .error ("invalid value for " ++ c4Spec.name ++ " : " ++ Parsley.int2str 15 ++
        " is out of range " ++ c4Spec.range ++ ".") ∧
    c4Spec.range = String.mk ((Parsley.int2str 1 ++ " to " ++
      Parsley.int2str 10).data.take 39) ∧
    Parsley.applyOption c4RSpec c4RValue0 ["10"] =
      .ok ({ c4RValue0 with real := .fin (10 : ℚ), isDefined := true }, []) ∧
    Parsley.applyOption c4RSpec c4RValue0 ["15"] =
      .error ("invalid value for " ++ c4RSpec.name ++ " : " ++
        Parsley.real2str (.fin (15 : ℚ)) ++ " is out of range " ++
        c4RSpec.range ++ ".") ∧
    c4RSpec.range = String.mk ((Parsley.real2str (.fin (1 : ℚ)) ++ " to " ++
      Parsley.real2str (.fin (10 : ℚ))).data.take 39) :=
  ⟨C4_range_boundaries.1 c4Spec c4Value0 "1" ["zzz"] 1 rfl rfl str2int_one
      (by decide) (by decide),
   C4_range_boundaries.2.1 c4Spec c4Value0 "15" [] 15 rfl rfl str2int_fifteen
      (Or.inr (by decide)),
   C4_range_boundaries.2.2.1 c4Spec rfl rfl,
   C4_range_boundaries.2.2.2.1 c4RSpec c4RValue0 "10" [] (10 : ℚ) rfl rfl str2real_ten
      (by decide) (by decide),
   C4_range_boundaries.2.2.2.2.1 c4RSpec c4RValue0 "15" [] (15 : ℚ) rfl rfl
      str2real_fifteen (Or.inr (by decide)),
   C4_range_boundaries.2.2.2.2.2.1 c4RSpec rfl rfl⟩

/-- The wide ranged real spec `--big` with range `[1e17, 2e17]`, whose
`"min to max"` rendering needs 44 characters and so overflows the 40-byte
buffer of `OptionSpec::range`. -/
def c4WideSpec : Parsley.OptionSpec :=
  ((Parsley.realSpec "big" 'b' "" false).realRange
    100000000000000000 200000000000000000).1

/-- Its working value after phase A. -/
def c4WideValue0 : Parsley.ProxyValue :=
  { isDefined := false, flag := false, str := "", ival := 0, real := 0,
    alreadySpecified := false, spec := c4WideSpec }

/-- C4 counterexample: the claim's "message states the configured range in
the form 'min to max'" fails for the ranged real spec `[1e17, 2e17]` — the
40-byte `snprintf` buffer cuts the 44-character rendering to 39, so the
`range` text differs from the full `"min to max"` concatenation and the
fatal out-of-range message carries the truncated form. -/
theorem C4_range_truncation_counterexample :
    c4WideSpec.kind = .kReal ∧ c4WideSpec.rangeIsDefined = true ∧
    c4WideSpec.range ≠
      Parsley.real2str (.fin c4WideSpec.minRealValue) ++ " to " ++
        Parsley.real2str (.fin c4WideSpec.maxRealValue) ∧
    c4WideSpec.range.length = 39 ∧
    (Parsley.real2str (.fin c4WideSpec.minRealValue) ++ " to " ++
      Parsley.real2str (.fin c4WideSpec.maxRealValue)).length = 44 ∧
    Parsley.applyOption c4WideSpec c4WideValue0 ["5"] =
      .error ("invalid value for -b, --big : 5.0 is out of range " ++
        c4WideSpec.range ++ ".") := by
  have h5 : Parsley.str2real "5" = some (.fin (5 : ℚ)) := by
    have h := Parsley.str2real_int2str 5
    rwa [show Parsley.int2str 5 = "5" from by decide,
      show (((5 : Int)) : ℚ) = (5 : ℚ) from by norm_num] at h
  refine ⟨rfl, rfl, by decide, by decide, by decide, ?_⟩
  simp only [Parsley.applyOption, show c4WideSpec.kind = Parsley.Kind.kReal from rfl, h5]
  rw [if_pos ⟨rfl, Or.inl (by decide)⟩,
    show c4WideSpec.name = "-b, --big" from by decide,
    show Parsley.real2str (.fin (5 : ℚ)) = "5.0" from by decide]
  rfl
